import Mathlib

/-!
Verification of the Pillar SDK plan-orchestration core against its
natural-language specification.

The development shallowly embeds the TypeScript sources:
  * `src/api/mcp-client.ts`   — `callToolStream`'s streaming read loop
    (byte buffering, `data: ` line framing, frame dispatch);
  * `src/store/plan.ts`       — the signal-based plan store
    (`setPlan`, `updatePlan`, `updatePlanStep`, `clearPlan`);
  * `src/store/plan-persistence.ts` — the localStorage envelope
    (`savePlan`, `loadSavedPlan`, `clearSavedPlan`);
  * `src/core/plan-executor.ts` — the `PlanExecutor` state machine.

Conventions of the embedding:
  * JSON values are the inductive `Json`; `JSON.parse` of a data line is an
    abstract function `List Char → Option Json` (JSON.parse is a pure
    function of the line text; theorems quantify over it, concrete
    instances map exact payload strings to the values JSON.parse yields).
  * Response bodies and network chunks are `List Char`.  `TextDecoder`
    with `stream:true` guarantees the decoded chunk strings concatenate
    to the decoded body, which is what this models.
  * Asynchronous server round-trips are an oracle `ServerOracle` whose
    fields return `Except String ExecutionPlan` (`.error` = rejected
    promise carrying the error message).
  * Every observable side effect (event emission, RPC issue, persistence
    call, store step patch) is recorded in an `Effect` trace so theorems
    can speak about "what the operation did before returning".
  * The mutually recursive `executeStep`/`executeNextStep` walk is run on
    explicit fuel; every internal call consumes one unit.
-/

set_option maxRecDepth 4000

namespace PillarSDK

/-! ## JSON values -/

/-- JSON values as delivered on the wire.  Numbers are modelled as
integers (ids and the fields the client inspects are integral). -/
inductive Json where
  | null
  | bool (b : Bool)
  | num (n : Int)
  | str (s : String)
  | arr (elems : List Json)
  | obj (fields : List (String × Json))

mutual

def Json.decEq : (a b : Json) → Decidable (a = b)
  | .null, .null => isTrue rfl
  | .null, .bool _ => isFalse (fun h => nomatch h)
  | .null, .num _ => isFalse (fun h => nomatch h)
  | .null, .str _ => isFalse (fun h => nomatch h)
  | .null, .arr _ => isFalse (fun h => nomatch h)
  | .null, .obj _ => isFalse (fun h => nomatch h)
  | .bool _, .null => isFalse (fun h => nomatch h)
  | .bool a, .bool b => decidable_of_iff (a = b) (by simp)
  | .bool _, .num _ => isFalse (fun h => nomatch h)
  | .bool _, .str _ => isFalse (fun h => nomatch h)
  | .bool _, .arr _ => isFalse (fun h => nomatch h)
  | .bool _, .obj _ => isFalse (fun h => nomatch h)
  | .num _, .null => isFalse (fun h => nomatch h)
  | .num _, .bool _ => isFalse (fun h => nomatch h)
  | .num a, .num b => decidable_of_iff (a = b) (by simp)
  | .num _, .str _ => isFalse (fun h => nomatch h)
  | .num _, .arr _ => isFalse (fun h => nomatch h)
  | .num _, .obj _ => isFalse (fun h => nomatch h)
  | .str _, .null => isFalse (fun h => nomatch h)
  | .str _, .bool _ => isFalse (fun h => nomatch h)
  | .str _, .num _ => isFalse (fun h => nomatch h)
  | .str a, .str b => decidable_of_iff (a = b) (by simp)
  | .str _, .arr _ => isFalse (fun h => nomatch h)
  | .str _, .obj _ => isFalse (fun h => nomatch h)
  | .arr _, .null => isFalse (fun h => nomatch h)
  | .arr _, .bool _ => isFalse (fun h => nomatch h)
  | .arr _, .num _ => isFalse (fun h => nomatch h)
  | .arr _, .str _ => isFalse (fun h => nomatch h)
  | .arr xs, .arr ys =>
    letI : Decidable (xs = ys) := Json.decEqList xs ys
    decidable_of_iff (xs = ys) (by simp)
  | .arr _, .obj _ => isFalse (fun h => nomatch h)
  | .obj _, .null => isFalse (fun h => nomatch h)
  | .obj _, .bool _ => isFalse (fun h => nomatch h)
  | .obj _, .num _ => isFalse (fun h => nomatch h)
  | .obj _, .str _ => isFalse (fun h => nomatch h)
  | .obj _, .arr _ => isFalse (fun h => nomatch h)
  | .obj xs, .obj ys =>
    letI : Decidable (xs = ys) := Json.decEqFields xs ys
    decidable_of_iff (xs = ys) (by simp)

def Json.decEqList : (a b : List Json) → Decidable (a = b)
  | [], [] => isTrue rfl
  | [], _ :: _ => isFalse (fun h => nomatch h)
  | _ :: _, [] => isFalse (fun h => nomatch h)
  | x :: xs, y :: ys =>
    letI : Decidable (x = y) := Json.decEq x y
    letI : Decidable (xs = ys) := Json.decEqList xs ys
    decidable_of_iff (x = y ∧ xs = ys) (by simp)

def Json.decEqFields : (a b : List (String × Json)) → Decidable (a = b)
  | [], [] => isTrue rfl
  | [], _ :: _ => isFalse (fun h => nomatch h)
  | _ :: _, [] => isFalse (fun h => nomatch h)
  | (k, v) :: xs, (k', v') :: ys =>
    letI : Decidable (v = v') := Json.decEq v v'
    letI : Decidable (xs = ys) := Json.decEqFields xs ys
    decidable_of_iff (k = k' ∧ v = v' ∧ xs = ys) (by simp [Prod.ext_iff, and_assoc])

end

instance : DecidableEq Json := Json.decEq

/-- Member access `j.key`: `none` models JavaScript `undefined`. -/
def Json.getField : Json → String → Option Json
  | .obj fields, key => (fields.find? (fun p => decide (p.1 = key))).map (fun p => p.2)
  | _, _ => none

/-- JavaScript truthiness of a defined value. -/
def Json.truthy : Json → Bool
  | .null => false
  | .bool b => b
  | .num n => decide (n ≠ 0)
  | .str s => decide (s ≠ "")
  | .arr _ => true
  | .obj _ => true

/-- Truthiness of a possibly-undefined value (`undefined` is falsy). -/
def optTruthy : Option Json → Bool
  | some j => j.truthy
  | none => false

/-! ## Streaming read loop of `MCPClient.callToolStream`

The loop (mcp-client.ts lines 240-335): read a chunk, append to `buffer`,
split on `'\n'`, keep the trailing incomplete line in `buffer`, and for
each complete line starting with `"data: "` parse the JSON frame and
dispatch on it.  A frame with `kind:"cancelled"` executes `break`, which
in JavaScript exits the innermost loop — the `for (const line of lines)`
loop — not the `while (true)` read loop. -/

/-- Callback invocations observed by the caller of `callToolStream`. -/
inductive StreamEv where
  | token (t : Json)
  | planCreated (plan : Json)
  | progressCb (p : Json)
  | errorCb (msg : String)
  | sourcesCb (s : Json)
  | actionsCb (a : Json)
  | completeCb (conversationId queryLogId : Option Json)
deriving DecidableEq

/-- What a single data line does to the loop control flow. -/
inductive LineSignal where
  | next
  | stop
  | threw (msg : String)
deriving DecidableEq

/-- The effect of processing one complete line: callbacks fired, the
`finalResult` assignment if any, and the control-flow signal. -/
structure LineEffect where
  events : List StreamEv := []
  setFinal : Option Json := none
  signal : LineSignal := .next
deriving DecidableEq

/-- `event.error.message || 'Unknown error'` (string message case;
the server's error objects carry string messages). -/
def errMessage (err : Json) : String :=
  match err.getField "message" with
  | some (.str m) => if m = "" then "Unknown error" else m
  | _ => "Unknown error"

/-- Dispatch on `event.params.progress` (mcp-client.ts lines 275-289). -/
def progressEffect (progress : Json) : LineEffect :=
  if progress.truthy then
    let kind := progress.getField "kind"
    if decide (kind = some (.str "token")) && optTruthy (progress.getField "token") then
      { events := [.token ((progress.getField "token").getD .null)] }
    else if decide (kind = some (.str "plan_created")) && optTruthy (progress.getField "plan") then
      { events := [.planCreated ((progress.getField "plan").getD .null)] }
    else if kind = some (.str "cancelled") then
      { signal := .stop }
    else
      { events := [.progressCb progress] }
  else {}

/-- Handling of a final response frame `event.result && event.id ===
requestId` (mcp-client.ts lines 294-318). -/
def resultEffect (requestId : Int) (event : Json) : LineEffect :=
  match event.getField "result" with
  | some result =>
    if result.truthy && decide (event.getField "id" = some (.num requestId)) then
      let sc := (result.getField "structuredContent")
      let srcEvs := match sc.bind (fun c => c.getField "sources") with
        | some s => if s.truthy then [StreamEv.sourcesCb s] else []
        | none => []
      let actEvs := match sc.bind (fun c => c.getField "actions") with
        | some a => if a.truthy then [StreamEv.actionsCb a] else []
        | none => []
      let planEvs := match sc.bind (fun c => c.getField "plan") with
        | some p => if p.truthy then [StreamEv.planCreated p] else []
        | none => []
      let meta := result.getField "_meta"
      let cid := meta.bind (fun m => m.getField "conversation_id")
      let qid := meta.bind (fun m => m.getField "query_log_id")
      { events := srcEvs ++ actEvs ++ planEvs ++ [StreamEv.completeCb cid qid],
        setFinal := some result }
    else {}
  | none => {}

/-- Dispatch on one parsed frame (mcp-client.ts lines 266-318).  The
error check precedes everything; the `break` of the cancelled branch
skips the final-result check of the same frame. -/
def eventEffect (requestId : Int) (event : Json) : LineEffect :=
  if event.getField "jsonrpc" = some (.str "2.0") then
    let errCase : Option String :=
      match event.getField "error" with
      | some err => if err.truthy then some (errMessage err) else none
      | none => none
    match errCase with
    | some msg => { events := [.errorCb msg], signal := .threw msg }
    | none =>
      let pe : LineEffect :=
        if event.getField "method" = some (.str "notifications/progress") then
          match (event.getField "params").bind (fun p => p.getField "progress") with
          | some progress => progressEffect progress
          | none => {}
        else {}
      match pe.signal with
      | .stop => pe
      | _ =>
        let re := resultEffect requestId event
        { events := pe.events ++ re.events, setFinal := re.setFinal, signal := .next }
  else {}

/-- The `"data: "` line marker. -/
def dataMarker : List Char := "data: ".data

/-- Effect of one complete line (mcp-client.ts lines 256-323): skip
whitespace-only lines, require the `data: ` marker, parse the rest, and
skip the frame when `JSON.parse` throws. -/
def lineEffect (parse : List Char → Option Json) (requestId : Int)
    (line : List Char) : LineEffect :=
  if line.all Char.isWhitespace then {}
  else if line.take 6 = dataMarker then
    match parse (line.drop 6) with
    | some event => eventEffect requestId event
    | none => {}
  else {}

/-- The mutable state the per-line loop touches: the `finalResult`
variable and the callbacks fired so far.  (`collectedText` of the source
is exactly the list of `token` events and is not duplicated here.  The
loop body never references the read `buffer`, so the buffer lives in
`StreamState` outside this core.) -/
structure LoopCore where
  finalResult : Option Json
  events : List StreamEv
deriving DecidableEq

def LoopCore.applyEffect (s : LoopCore) (e : LineEffect) : LoopCore :=
  { events := s.events ++ e.events,
    finalResult := match e.setFinal with
      | some r => some r
      | none => s.finalResult }

/-- The `for (const line of lines)` loop: sequential processing with
`break` (`.stop`) and exception (`.threw`) propagation. -/
def processLines (parse : List Char → Option Json) (requestId : Int) :
    List (List Char) → LoopCore → LoopCore × LineSignal
  | [], s => (s, .next)
  | l :: rest, s =>
    let e := lineEffect parse requestId l
    let s' := s.applyEffect e
    match e.signal with
    | .next => processLines parse requestId rest s'
    | .stop => (s', .stop)
    | .threw m => (s', .threw m)

/-- Loop state across reads: the held-back incomplete line, the loop
core, and the error the loop re-threw, if any. -/
structure StreamState where
  buffer : List Char
  core : LoopCore
  aborted : Option String
deriving DecidableEq

/-- `str.split('\n')` on character lists (never empty; the last element
is the trailing incomplete line). -/
def splitNL : List Char → List (List Char)
  | [] => [[]]
  | c :: rest =>
    if c = '\n' then [] :: splitNL rest
    else
      match splitNL rest with
      | [] => [[c]]
      | l :: ls => (c :: l) :: ls

/-- One iteration of the `while (true)` read loop for one decoded chunk:
`buffer += decoded; lines = buffer.split('\n'); buffer = lines.pop()`,
then the per-line loop. -/
def processChunk (parse : List Char → Option Json) (requestId : Int)
    (chunk : List Char) (s : StreamState) : StreamState × LineSignal :=
  let parts := splitNL (s.buffer ++ chunk)
  let r := processLines parse requestId parts.dropLast s.core
  ({ buffer := parts.getLastD [], core := r.1, aborted := s.aborted }, r.2)

/-- The read loop over the successive chunks of the response body.  Only
a thrown error ends it early (recorded in `aborted`, mirroring the
rethrow after the `finally`); the `.stop` signal of a cancelled frame
merely ends that chunk's line loop. -/
def runChunks (parse : List Char → Option Json) (requestId : Int) :
    List (List Char) → StreamState → StreamState
  | [], s => s
  | c :: cs, s =>
    match processChunk parse requestId c s with
    | (s', .threw m) => { s' with aborted := some m }
    | (s', _) => runChunks parse requestId cs s'

def initStream : StreamState := ⟨[], ⟨none, []⟩, none⟩

/-- `callToolStream`'s observable stream processing, fed the given
sequence of decoded chunks. -/
def callToolStream (parse : List Char → Option Json) (requestId : Int)
    (chunks : List (List Char)) : StreamState :=
  runChunks parse requestId chunks initStream

/-- The `onToken` callback sequence of a run. -/
def tokensOf (s : StreamState) : List Json :=
  s.core.events.filterMap (fun e => match e with | .token t => some t | _ => none)

/-! ### Line-buffering lemmas -/

theorem splitNL_ne_nil (xs : List Char) : splitNL xs ≠ [] := by
  cases xs with
  | nil => simp [splitNL]
  | cons c rest =>
    simp only [splitNL]
    split
    · exact List.cons_ne_nil _ _
    · split <;> exact List.cons_ne_nil _ _

theorem splitNL_mem_no_newline : ∀ {xs l : List Char}, l ∈ splitNL xs → '\n' ∉ l := by
  intro xs
  induction xs with
  | nil =>
    intro l h
    simp [splitNL] at h
    subst h; simp
  | cons c rest ih =>
    intro l h
    simp only [splitNL] at h
    by_cases hc : c = '\n'
    · rw [if_pos hc] at h
      rcases List.mem_cons.mp h with h1 | h2
      · subst h1; simp
      · exact ih h2
    · rw [if_neg hc] at h
      cases hsp : splitNL rest with
      | nil => exact absurd hsp (splitNL_ne_nil rest)
      | cons ll ls =>
        rw [hsp] at h
        rcases List.mem_cons.mp h with h1 | h2
        · subst h1
          intro hmem
          rcases List.mem_cons.mp hmem with h3 | h4
          · exact hc h3.symm
          · exact ih (hsp ▸ List.mem_cons_self ll ls) h4
        · exact ih (hsp ▸ List.mem_cons.mpr (Or.inr h2))

theorem getLastD_nil {α : Type} (d : α) : ([] : List α).getLastD d = d := rfl

theorem getLastD_cons' {α : Type} (a : α) (l : List α) (d : α) :
    (a :: l).getLastD d = l.getLastD a := by
  cases l <;> rfl

theorem getLastD_mem {α : Type} : ∀ (l : List α) (d : α), l ≠ [] → l.getLastD d ∈ l
  | [], _, h => absurd rfl h
  | [a], _, _ => by simp [getLastD_cons']
  | a :: b :: t, d, _ => by
    have hrec := getLastD_mem (b :: t) a (List.cons_ne_nil _ _)
    rw [getLastD_cons']
    exact List.mem_cons_of_mem a hrec

/-- Splitting `pre ++ ys` when `pre` holds no newline merges `pre` into
the first line of `splitNL ys`. -/
theorem splitNL_append_flat {pre : List Char} (hpre : '\n' ∉ pre) (ys : List Char) :
    splitNL (pre ++ ys) = (pre ++ (splitNL ys).headI) :: (splitNL ys).tail := by
  induction pre with
  | nil =>
    simp only [List.nil_append]
    cases h : splitNL ys with
    | nil => exact absurd h (splitNL_ne_nil ys)
    | cons l ls => simp [h]
  | cons c pre ih =>
    have hc : ¬ c = '\n' := fun h => hpre (h ▸ List.mem_cons_self c pre)
    have hpre' : '\n' ∉ pre := fun h => hpre (List.mem_cons_of_mem _ h)
    have hrw := ih hpre'
    simp only [List.cons_append, splitNL, List.append_eq, if_neg hc]
    rw [hrw]

/-- The decomposition of `splitNL` over an append: the complete lines of
the left part, then the held-back last piece of the left part merged with
the first line of the right part. -/
theorem splitNL_append (xs ys : List Char) :
    splitNL (xs ++ ys) =
      (splitNL xs).dropLast ++
        (((splitNL xs).getLastD [] ++ (splitNL ys).headI) :: (splitNL ys).tail) := by
  induction xs with
  | nil =>
    cases h : splitNL ys with
    | nil => exact absurd h (splitNL_ne_nil ys)
    | cons l ls =>
      simp only [List.nil_append, splitNL, h]
      rfl
  | cons c rest ih =>
    by_cases hc : c = '\n'
    · simp only [List.cons_append, splitNL, List.append_eq]
      rw [if_pos hc, if_pos hc, ih]
      cases h : splitNL rest with
      | nil => exact absurd h (splitNL_ne_nil rest)
      | cons l ls =>
        simp only [h, List.dropLast_cons₂, getLastD_cons', List.cons_append]
    · simp only [List.cons_append, splitNL, List.append_eq]
      rw [if_neg hc, if_neg hc, ih]
      cases h : splitNL rest with
      | nil => exact absurd h (splitNL_ne_nil rest)
      | cons l ls =>
        cases ls with
        | nil =>
          simp only [h, List.dropLast_single, List.nil_append, getLastD_cons', getLastD_nil,
            List.cons_append]
        | cons l2 ls2 =>
          simp only [h, List.dropLast_cons₂, getLastD_cons', List.cons_append]

/-- The complete lines produced by feeding `c1` then `c2` equal the
complete lines of the whole body `c1 ++ c2`. -/
theorem bodyLines_split (c1 c2 : List Char) :
    (splitNL (c1 ++ c2)).dropLast =
      (splitNL c1).dropLast ++ (splitNL ((splitNL c1).getLastD [] ++ c2)).dropLast := by
  have hb : '\n' ∉ (splitNL c1).getLastD [] :=
    splitNL_mem_no_newline (getLastD_mem _ _ (splitNL_ne_nil c1))
  rw [splitNL_append, splitNL_append_flat hb, List.dropLast_append_cons]

/-! ### Read-loop composition lemmas -/

/-- A line list none of whose members signals `break` never ends the
per-line loop with the `.stop` signal. -/
theorem processLines_ne_stop (parse : List Char → Option Json) (requestId : Int)
    (L : List (List Char)) :
    ∀ (s : LoopCore), (∀ l ∈ L, (lineEffect parse requestId l).signal ≠ .stop) →
      (processLines parse requestId L s).2 ≠ .stop := by
  induction L with
  | nil => intro s _; simp [processLines]
  | cons l rest ih =>
    intro s h
    simp only [processLines]
    cases hsig : (lineEffect parse requestId l).signal with
    | next => exact ih _ (fun x hx => h x (List.mem_cons_of_mem _ hx))
    | stop => exact absurd hsig (h l (List.mem_cons_self _ _))
    | threw m => simp

/-- Under no `break`, the per-line loop over an appended list is the
composition of the two loops (exceptions short-circuit identically). -/
theorem processLines_append_of_no_stop (parse : List Char → Option Json) (requestId : Int)
    (L1 L2 : List (List Char)) :
    ∀ (s : LoopCore), (∀ l ∈ L1, (lineEffect parse requestId l).signal ≠ .stop) →
      processLines parse requestId (L1 ++ L2) s =
        (match processLines parse requestId L1 s with
          | (s', .next) => processLines parse requestId L2 s'
          | r => r) := by
  induction L1 with
  | nil => intro s _; rfl
  | cons l rest ih =>
    intro s h
    simp only [List.cons_append, processLines]
    cases hsig : (lineEffect parse requestId l).signal with
    | next => exact ih _ (fun x hx => h x (List.mem_cons_of_mem _ hx))
    | stop => exact absurd hsig (h l (List.mem_cons_self _ _))
    | threw m => simp

theorem processChunk_eq (parse : List Char → Option Json) (requestId : Int)
    (chunk : List Char) (s : StreamState) :
    processChunk parse requestId chunk s =
      ({ buffer := (splitNL (s.buffer ++ chunk)).getLastD [],
         core := (processLines parse requestId (splitNL (s.buffer ++ chunk)).dropLast s.core).1,
         aborted := s.aborted },
        (processLines parse requestId (splitNL (s.buffer ++ chunk)).dropLast s.core).2) := rfl

/-- C4 helper: the resulting callback log of a two-chunk run equals that
of the corresponding one-chunk run, provided no line of the body takes
the cancelled branch. -/
theorem runChunks_core_split (parse : List Char → Option Json) (requestId : Int)
    (c1 c2 : List Char)
    (hnc : ∀ l ∈ (splitNL (c1 ++ c2)).dropLast, (lineEffect parse requestId l).signal ≠ .stop) :
    (callToolStream parse requestId [c1, c2]).core =
      (callToolStream parse requestId [c1 ++ c2]).core := by
  have hsplitL := bodyLines_split c1 c2
  have hnc1 : ∀ l ∈ (splitNL c1).dropLast, (lineEffect parse requestId l).signal ≠ .stop := by
    intro l hl
    exact hnc l (by rw [hsplitL]; exact List.mem_append.mpr (Or.inl hl))
  have happ := processLines_append_of_no_stop parse requestId (splitNL c1).dropLast
    (splitNL ((splitNL c1).getLastD [] ++ c2)).dropLast initStream.core hnc1
  have hns := processLines_ne_stop parse requestId (splitNL c1).dropLast initStream.core hnc1
  rcases hq1 : processLines parse requestId (splitNL c1).dropLast initStream.core
    with ⟨core1, sig1⟩
  rw [hq1] at happ hns
  simp only [callToolStream, runChunks, processChunk_eq]
  have hbuf : initStream.buffer ++ c1 = c1 := List.nil_append c1
  have hbuf2 : initStream.buffer ++ (c1 ++ c2) = c1 ++ c2 := List.nil_append _
  rw [hbuf, hbuf2, hq1, hsplitL, happ]
  cases sig1 with
  | next =>
    rcases hq2 : processLines parse requestId
        (splitNL ((splitNL c1).getLastD [] ++ c2)).dropLast core1 with ⟨core2, sig2⟩
    simp only [runChunks, processChunk_eq, hq2]
    cases sig2 <;> rfl
  | stop => exact absurd rfl hns
  | threw m => rfl

/-! ### The cancelled branch -/

/-- The effect of a cancelled progress frame: no callback, no result,
just the `break` (the only branch of the dispatch that signals `stop`,
mcp-client.ts lines 283-286). -/
def breakEffect : LineEffect := { events := [], setFinal := none, signal := .stop }

theorem progressEffect_cancelled (p : Json) (hp : p.truthy = true)
    (hk : p.getField "kind" = some (.str "cancelled")) :
    progressEffect p = breakEffect := by
  unfold progressEffect
  rw [if_pos hp]
  have h1 : ¬ (decide (p.getField "kind" = some (Json.str "token"))
      && optTruthy (p.getField "token")) = true := by simp [hk]
  have h2 : ¬ (decide (p.getField "kind" = some (Json.str "plan_created"))
      && optTruthy (p.getField "plan")) = true := by simp [hk]
  rw [if_neg h1, if_neg h2, if_pos hk]
  rfl

/-! ### Concrete frames for the stream examples -/

/-- The payload of a `kind:"cancelled"` progress notification, exactly
as the server writes it after the `data: ` marker. -/
def cancelPayload : String :=
  "\x7b\"jsonrpc\":\"2.0\",\"method\":\"notifications/progress\",\"params\":\x7b\"progress\":\x7b\"kind\":\"cancelled\"\x7d\x7d\x7d"

/-- The value `JSON.parse` yields on `cancelPayload`. -/
def cancelFrame : Json :=
  .obj [("jsonrpc", .str "2.0"), ("method", .str "notifications/progress"),
        ("params", .obj [("progress", .obj [("kind", .str "cancelled")])])]

/-- The payload of a `kind:"token"` progress notification carrying the
token `"hi"`. -/
def tokenPayload : String :=
  "\x7b\"jsonrpc\":\"2.0\",\"method\":\"notifications/progress\",\"params\":\x7b\"progress\":\x7b\"kind\":\"token\",\"token\":\"hi\"\x7d\x7d\x7d"

/-- The value `JSON.parse` yields on `tokenPayload`. -/
def tokenFrame : Json :=
  .obj [("jsonrpc", .str "2.0"), ("method", .str "notifications/progress"),
        ("params", .obj [("progress", .obj [("kind", .str "token"), ("token", .str "hi")])])]

/-- `JSON.parse` restricted to the two payloads the concrete examples
use: on these exact strings `JSON.parse` returns exactly these objects,
and the examples feed it nothing else. -/
def exampleParse (s : List Char) : Option Json :=
  if s = cancelPayload.data then some cancelFrame
  else if s = tokenPayload.data then some tokenFrame
  else none

def cancelLine : List Char := ("data: " ++ cancelPayload ++ "\n").data

def tokenLine : List Char := ("data: " ++ tokenPayload ++ "\n").data

/-! ### Claims C2 and C4 -/

/-- C2 (counterexample): feeding `callToolStream` a body whose first
chunk ends with a cancelled progress frame and whose second chunk holds
a token frame still fires the token callback: the claim that the read
loop terminates at the cancelled frame — no further reads, no further
frames — is false on the code (the `break` only leaves the per-line
loop of the current chunk). -/
theorem C2_counterexample :
    (lineEffect exampleParse 1 ("data: " ++ cancelPayload).data).signal = .stop ∧
    tokensOf (callToolStream exampleParse 1 [cancelLine, tokenLine]) = [.str "hi"] :=
  ⟨by decide, by decide⟩

/-- C2 (amended): a parsed `kind:"cancelled"` progress frame executes
`break`, which ends only the per-line loop over the current read's
complete lines — the remaining lines of that chunk are not processed and
the loop state is untouched — while the `while` read loop continues, so
frames arriving in subsequent reads are still processed. -/
theorem C2_cancelled_breaks_chunk_only (parse : List Char → Option Json) (requestId : Int)
    (cl : List Char) (suf : List (List Char)) (core : LoopCore)
    (c : List Char) (cs : List (List Char)) (s : StreamState)
    (hc : lineEffect parse requestId cl = breakEffect)
    (hpc : (processChunk parse requestId c s).2 = .stop) :
    processLines parse requestId (cl :: suf) core = (core, .stop) ∧
    runChunks parse requestId (c :: cs) s =
      runChunks parse requestId cs (processChunk parse requestId c s).1 := by
  constructor
  · simp only [processLines, hc, breakEffect, LoopCore.applyEffect, List.append_nil]
  · rcases hq : processChunk parse requestId c s with ⟨s', sig⟩
    rw [hq] at hpc
    simp only at hpc
    subst hpc
    simp only [runChunks, hq]

theorem C2_cancelled_breaks_chunk_only_witness :
    processLines exampleParse 1
        [("data: " ++ cancelPayload).data, ("data: " ++ tokenPayload).data]
        ⟨none, []⟩ = (⟨none, []⟩, .stop) ∧
    runChunks exampleParse 1 [cancelLine, tokenLine] initStream =
      runChunks exampleParse 1 [tokenLine]
        (processChunk exampleParse 1 cancelLine initStream).1 :=
  C2_cancelled_breaks_chunk_only exampleParse 1 ("data: " ++ cancelPayload).data
    [("data: " ++ tokenPayload).data] ⟨none, []⟩ cancelLine [tokenLine] initStream
    (by decide) (by decide)

/-- C4 (counterexample): the same response body — a cancelled frame
followed by a token frame — fed as a single chunk or split at the frame
boundary yields different `onToken` sequences, so chunk-boundary
independence fails as universally stated. -/
theorem C4_counterexample :
    tokensOf (callToolStream exampleParse 1 [cancelLine, tokenLine]) ≠
      tokensOf (callToolStream exampleParse 1 [cancelLine ++ tokenLine]) := by
  decide

/-- C4 (amended): for every response body none of whose complete lines
is a cancelled frame, and every split of that body into two chunks, the
two-chunk run produces exactly the same `onToken` sequence as the
single-chunk run.  (With a cancelled frame the `break` is chunk-scoped,
so a split can change which lines are processed.) -/
theorem C4_chunk_independence_no_cancel (parse : List Char → Option Json) (requestId : Int)
    (body c1 c2 : List Char) (hsplit : c1 ++ c2 = body)
    (hnc : ∀ l ∈ (splitNL body).dropLast, (lineEffect parse requestId l).signal ≠ .stop) :
    tokensOf (callToolStream parse requestId [c1, c2]) =
      tokensOf (callToolStream parse requestId [body]) := by
  subst hsplit
  unfold tokensOf
  rw [runChunks_core_split parse requestId c1 c2 hnc]

theorem C4_chunk_independence_no_cancel_witness :
    tokensOf (callToolStream exampleParse 1 [tokenLine.take 9, tokenLine.drop 9]) =
      tokensOf (callToolStream exampleParse 1 [tokenLine]) :=
  C4_chunk_independence_no_cancel exampleParse 1 tokenLine (tokenLine.take 9)
    (tokenLine.drop 9) (List.take_append_drop 9 tokenLine) (by decide)

/-! ## Plan data model (core/plan.ts) -/

/-- `PlanStatus` (core/plan.ts). -/
inductive PlanStatus where
  | planning
  | ready
  | executing
  | awaiting_start
  | awaiting_input
  | awaiting_result
  | completed
  | failed
  | cancelled
deriving DecidableEq

/-- `StepStatus` (core/plan.ts). -/
inductive StepStatus where
  | pending
  | ready
  | awaiting_confirmation
  | executing
  | awaiting_result
  | completed
  | skipped
  | failed
deriving DecidableEq

/-- `ExecutionLocation` (core/plan.ts). -/
inductive ExecutionLocation where
  | client
  | server
deriving DecidableEq

/-- `ExecutionStep` (core/plan.ts).  `result = none` models the absent /
`undefined` field; a JSON `null` result is `some .null`. -/
structure ExecutionStep where
  id : String
  index : Int
  description : String
  action_name : String
  action_data : Json
  execution_location : ExecutionLocation
  requires_user_confirmation : Bool
  requires_result_feedback : Bool
  auto_run : Bool
  auto_complete : Bool
  confirmation_card_type : String
  depends_on : List String
  status : StepStatus
  result : Option Json
  error_message : String
  retry_count : Int
  max_retries : Int
  is_retriable : Bool
deriving DecidableEq

/-- `ExecutionPlan` (core/plan.ts). -/
structure ExecutionPlan where
  id : String
  goal : String
  query : String
  status : PlanStatus
  auto_execute : Bool
  total_steps : Int
  completed_steps : Int
  timeout_minutes : Int
  steps : List ExecutionStep
  created_at : Option String
  completed_at : Option String
deriving DecidableEq

/-! ## Plan store (store/plan.ts) -/

/-- The `Partial<ExecutionStep>` updates the executor passes to
`updatePlanStep`: only the fields some call site actually updates.
For `result`, the outer `Option` is "field present in the partial
object" (`some none` = the call site wrote an `undefined` value, which
the spread still copies). -/
structure StepPatch where
  status : Option StepStatus := none
  result : Option (Option Json) := none
  action_data : Option Json := none
  error_message : Option String := none
deriving DecidableEq

/-- The object spread `{ ...step, ...updates }`. -/
def applyPatch (step : ExecutionStep) (p : StepPatch) : ExecutionStep :=
  { step with
    status := p.status.getD step.status,
    result := match p.result with
      | some r => r
      | none => step.result,
    action_data := p.action_data.getD step.action_data,
    error_message := p.error_message.getD step.error_message }

/-- The two signals of store/plan.ts: the active plan and the history. -/
structure PlanStore where
  activePlan : Option ExecutionPlan
  planHistory : List ExecutionPlan
deriving DecidableEq

/-- `setPlan` (store/plan.ts lines 68-74): archive any current plan,
then replace. -/
def setPlan (store : PlanStore) (plan : ExecutionPlan) : PlanStore :=
  { activePlan := some plan,
    planHistory := match store.activePlan with
      | some p => store.planHistory ++ [p]
      | none => store.planHistory }

/-- `updatePlan` (store/plan.ts lines 79-81): replace in place. -/
def updatePlan (store : PlanStore) (plan : ExecutionPlan) : PlanStore :=
  { store with activePlan := some plan }

/-- `updatePlanStep` (store/plan.ts lines 86-107): patch the step with
the given id and recompute `completed_steps` only when the update sets
status `completed`. -/
def updatePlanStep (store : PlanStore) (stepId : String) (updates : StepPatch) : PlanStore :=
  match store.activePlan with
  | none => store
  | some plan =>
    let steps := plan.steps.map (fun step =>
      if step.id = stepId then applyPatch step updates else step)
    let completedSteps : Int :=
      if updates.status = some .completed then
        ((steps.filter (fun s => decide (s.status = .completed))).length : Int)
      else plan.completed_steps
    { store with activePlan := some { plan with steps := steps, completed_steps := completedSteps } }

/-- `clearPlan` (store/plan.ts lines 113-118). -/
def clearPlan (store : PlanStore) (addToHistory : Bool) : PlanStore :=
  { activePlan := none,
    planHistory := match store.activePlan with
      | some p => if addToHistory then store.planHistory ++ [p] else store.planHistory
      | none => store.planHistory }

/-! ## Plan persistence (store/plan-persistence.ts)

localStorage is an association list from key to the already-parsed
stored envelope (for the values this module writes,
`JSON.parse (JSON.stringify v) = v`, so serialization is dropped from
the model; a corrupt entry is out of scope of the claims settled here).
Timestamps are epoch milliseconds. -/

def STORAGE_KEY : String := "pillar:active_plan"

def STORAGE_VERSION : Int := 1

/-- The `StoredPlanData` envelope. -/
structure StoredPlanData where
  version : Int
  plan : ExecutionPlan
  siteId : String
  storedAt : Int
deriving DecidableEq

/-- The localStorage slots. -/
abbrev LocalStorage := List (String × StoredPlanData)

def lsGet (ls : LocalStorage) (key : String) : Option StoredPlanData :=
  (ls.find? (fun p => decide (p.1 = key))).map (fun p => p.2)

def lsSet (ls : LocalStorage) (key : String) (v : StoredPlanData) : LocalStorage :=
  ls.filter (fun p => decide (p.1 ≠ key)) ++ [(key, v)]

def lsRemove (ls : LocalStorage) (key : String) : LocalStorage :=
  ls.filter (fun p => decide (p.1 ≠ key))

/-- `getStorageKey` (plan-persistence.ts lines 191-193). -/
def getStorageKey (siteId : String) : String := STORAGE_KEY ++ ":" ++ siteId

/-- The active statuses of plan-persistence.ts line 42 (the same list
appears in recoverPlan, plan-executor.ts line 83). -/
def activeStatuses : List PlanStatus :=
  [.planning, .ready, .executing, .awaiting_start, .awaiting_input, .awaiting_result]

/-- `clearSavedPlan` (plan-persistence.ts lines 125-135). -/
def clearSavedPlanFn (siteId : String) (ls : LocalStorage) : LocalStorage :=
  if siteId = "" then ls else lsRemove ls (getStorageKey siteId)

/-- `savePlan` (plan-persistence.ts lines 38-64): no-op on a falsy
siteId; clears instead of saving when the plan status is not active;
otherwise writes the versioned envelope stamped `now`. -/
def savePlanFn (plan : ExecutionPlan) (siteId : String) (now : Int)
    (ls : LocalStorage) : LocalStorage :=
  if siteId = "" then ls
  else if ¬ activeStatuses.contains plan.status then clearSavedPlanFn siteId ls
  else lsSet ls (getStorageKey siteId)
    { version := STORAGE_VERSION, plan := plan, siteId := siteId, storedAt := now }

/-- `loadSavedPlan` (plan-persistence.ts lines 72-118): returns the
stored plan, clearing the slot on version mismatch, site mismatch or
staleness.  `ageMinutes > timeoutMinutes` on reals is rendered exactly
as `now - storedAt > timeoutMinutes * 60000` on milliseconds;
`timeout_minutes || 30` maps `0` to the 30-minute default. -/
def loadSavedPlanFn (siteId : String) (now : Int)
    (ls : LocalStorage) : Option ExecutionPlan × LocalStorage :=
  if siteId = "" then (none, ls)
  else
    match lsGet ls (getStorageKey siteId) with
    | none => (none, ls)
    | some data =>
      if data.version ≠ STORAGE_VERSION then (none, clearSavedPlanFn siteId ls)
      else if data.siteId ≠ siteId then (none, clearSavedPlanFn siteId ls)
      else
        let timeoutMinutes := if data.plan.timeout_minutes = 0 then 30 else data.plan.timeout_minutes
        if now - data.storedAt > timeoutMinutes * 60000 then (none, clearSavedPlanFn siteId ls)
        else (some data.plan, ls)

/-! ## Plan Executor (core/plan-executor.ts)

The executor is modelled as a fueled interpreter over an explicit state.
Event payloads mirror the emitted objects; where the source reads
`activePlan.value!` (a TypeScript non-null assertion, not a runtime
check), the payload is the unchecked `Option` value, and where it reads
`...find(...)!` the payload step is the unchecked lookup result with the
source's `|| step` style fallbacks rendered as `Option.getD`. -/

/-- The events of the `plan:*` event stream, with their payloads. -/
inductive PlanEvent where
  | planStart (plan : ExecutionPlan)
  | stepActive (plan : Option ExecutionPlan) (step : ExecutionStep)
  | stepConfirm (plan : Option ExecutionPlan) (step : ExecutionStep)
  | stepComplete (plan : Option ExecutionPlan) (step : Option ExecutionStep) (success : Bool)
  | stepSkip (plan : Option ExecutionPlan) (step : ExecutionStep)
  | stepFailed (plan : Option ExecutionPlan) (step : Option ExecutionStep)
      (errMsg : String) (canRetry : Bool)
  | stepRetry (plan : ExecutionPlan) (step : Option ExecutionStep) (retryCount : Int)
  | planUpdated (plan : ExecutionPlan)
  | planComplete (plan : ExecutionPlan)
  | planCancel (plan : ExecutionPlan)
  | planError (plan : Option ExecutionPlan) (errMsg : String)
deriving DecidableEq

/-- Observable side effects of executor operations, in program order:
every MCP round-trip issued, every fire-and-forget send, every
`executeTask` dispatch, every persistence call, every store step patch,
and every emitted event. -/
inductive Effect where
  | rpcStartPlan (planId : String)
  | rpcSkipStep (planId stepId : String)
  | rpcRetryStep (planId stepId : String)
  | rpcFailStep (planId stepId msg : String)
  | rpcContinuePlan (planId stepId : String) (result : Option Json)
  | rpcCancelPlan (planId : String)
  | rpcGetPlan (planId : String)
  | rpcSendActionResult (actionName : String) (result : Json)
  | execTask (stepId actionName : String)
  | savePlanCall (siteId planId : String)
  | clearSavedPlanCall (siteId : String)
  | stepPatch (stepId : String) (updates : StepPatch)
  | ev (e : PlanEvent)
deriving DecidableEq

/-- The executor's reachable state: the plan store signals, the
localStorage slots, the wall clock, and the effect trace. -/
structure ExecState where
  store : PlanStore
  storage : LocalStorage
  now : Int
  effects : List Effect
deriving DecidableEq

def emit (e : PlanEvent) (s : ExecState) : ExecState :=
  { s with effects := s.effects ++ [Effect.ev e] }

def addEff (e : Effect) (s : ExecState) : ExecState :=
  { s with effects := s.effects ++ [e] }

/-- `updatePlanStep` as invoked by the executor, with the call recorded. -/
def doUpdateStep (stepId : String) (updates : StepPatch) (s : ExecState) : ExecState :=
  { s with store := updatePlanStep s.store stepId updates,
           effects := s.effects ++ [Effect.stepPatch stepId updates] }

/-- `persistPlan` / `savePlan` as invoked by the executor, with the call
recorded. -/
def doSavePlan (plan : ExecutionPlan) (siteId : String) (s : ExecState) : ExecState :=
  { s with storage := savePlanFn plan siteId s.now s.storage,
           effects := s.effects ++ [Effect.savePlanCall siteId plan.id] }

/-- `clearSavedPlan` as invoked by the executor, with the call recorded. -/
def doClearSaved (siteId : String) (s : ExecState) : ExecState :=
  { s with storage := clearSavedPlanFn siteId s.storage,
           effects := s.effects ++ [Effect.clearSavedPlanCall siteId] }

/-- The MCP plan round-trips: each awaited call either resolves to a
`{plan}` response or rejects with an error message. -/
structure ServerOracle where
  startPlanResp : String → Except String ExecutionPlan
  skipStepResp : String → String → Except String ExecutionPlan
  retryStepResp : String → String → Except String ExecutionPlan
  failStepResp : String → String → String → Except String ExecutionPlan
  continuePlanResp : String → String → Option Json → Except String ExecutionPlan
  cancelPlanResp : String → Except String ExecutionPlan
  getPlanResp : String → Except String ExecutionPlan

/-- The action registry and the `Pillar` singleton as the executor sees
them: `hasAction` (handler existence — `ActionDefinition.handler` is a
required field), the `returns` flag, the handler itself (which may throw),
and whether `Pillar.getInstance()` is non-null. -/
structure ActionEnv where
  hasAction : String → Bool
  actionReturns : String → Bool
  runHandler : String → Json → Except String (Option Json)
  pillarAvailable : Bool

/-- The operations of the executor, as entry points of the fueled
interpreter; `executeNextStep`, `executeStep` and `markStepComplete` are
the internal ones the public operations recurse into. -/
inductive ExecCall where
  | handlePlanReceived (plan : ExecutionPlan)
  | startPlan
  | executeNextStep
  | confirmStep (stepId : String) (modifiedData : Option Json)
  | skipStep (stepId : String)
  | retryStep (stepId : String)
  | cancel
  | completeStepByAction (actionName : String) (success : Bool) (data : Option Json)
  | markStepDone (stepId : String)
  | markStepComplete (stepId : String) (data : Option Json)
  | executeStep (step : ExecutionStep)
deriving DecidableEq

/-- `{ ...step.action_data, ...modifiedData }` of `confirmStep`. -/
def objFields : Json → List (String × Json)
  | .obj fs => fs
  | _ => []

def jsonMerge (a b : Json) : Json :=
  let fa := objFields a
  let fb := objFields b
  .obj ((fa.map (fun p => match fb.find? (fun q => decide (q.1 = p.1)) with
          | some q => (p.1, q.2)
          | none => p)) ++
        fb.filter (fun q => (fa.find? (fun p => decide (p.1 = q.1))).isNone))

/-- The catch block of `executeStep` (plan-executor.ts lines 541-589):
notify the server via `failStep` and adopt its plan; on a second failure
apply the local-only `failed` patch; then emit `plan:step:failed` with
`canRetry` from the possibly-server-updated step, `plan:step:complete`
with `success := false`, and `plan:error` only when `canRetry` is false.
The catch block swallows every error: the model returns a plain state. -/
def failCatch (oracle : ServerOracle) (plan : ExecutionPlan) (step : ExecutionStep)
    (errorMessage : String) (s : ExecState) : ExecState :=
  let s1 := addEff (.rpcFailStep plan.id step.id errorMessage) s
  let s2 := match oracle.failStepResp plan.id step.id errorMessage with
    | .ok rplan => { s1 with store := updatePlan s1.store rplan }
    | .error _ => doUpdateStep step.id
        { status := some .failed, error_message := some errorMessage } s1
  let updatedPlan := s2.store.activePlan
  let updatedStep := updatedPlan.bind (fun p => p.steps.find? (fun st => decide (st.id = step.id)))
  let canRetry := match updatedStep with
    | some u => u.is_retriable && decide (u.retry_count < u.max_retries)
    | none => step.is_retriable && decide (step.retry_count < step.max_retries)
  let s3 := emit (.stepFailed updatedPlan (some (updatedStep.getD step)) errorMessage canRetry) s2
  let s4 := emit (.stepComplete updatedPlan (some (updatedStep.getD step)) false) s3
  if canRetry then s4 else emit (.planError updatedPlan errorMessage) s4

/-- The try block of `executeStep` up to the handler result
(plan-executor.ts lines 456-503): run the registered handler (forwarding
a defined result through `sendActionResult` when the action `returns`
and Pillar is initialized), or fall back to `Pillar.executeTask`, or
throw when neither exists. -/
def runStepHandler (env : ActionEnv) (step : ExecutionStep) (s : ExecState) :
    Except String (ExecState × Option Json) :=
  if env.hasAction step.action_name then
    match env.runHandler step.action_name step.action_data with
    | .error m => .error m
    | .ok result =>
      let s' :=
        if env.actionReturns step.action_name then
          match result with
          | some r => if env.pillarAvailable then addEff (.rpcSendActionResult step.action_name r) s else s
          | none => s
        else s
      .ok (s', result)
  else if env.pillarAvailable then
    .ok (addEff (.execTask step.id step.action_name) s,
      some (.obj [("executed", .bool true), ("action", .str step.action_name)]))
  else .error ("No handler for action: " ++ step.action_name ++ " (Pillar not initialized)")

/-- The fueled interpreter of the `PlanExecutor` methods
(plan-executor.ts).  Every internal await of another executor method
consumes one unit of fuel; at fuel 0 the remaining continuation is
dropped (the theorems quantify over, or supply, sufficient fuel). -/
def runCall (env : ActionEnv) (oracle : ServerOracle) (siteId : String) :
    Nat → ExecCall → ExecState → ExecState
  | 0, _, s => s
  | fuel + 1, c, s =>
    match c with
    | .handlePlanReceived plan =>
      -- lines 45-58
      let s1 := { s with store := setPlan s.store plan }
      let s2 := doSavePlan plan siteId s1
      if plan.auto_execute && decide (plan.status = .executing) then
        let s3 := emit (.planStart plan) s2
        runCall env oracle siteId fuel .executeNextStep s3
      else s2
    | .startPlan =>
      -- lines 122-148
      match s.store.activePlan with
      | none => s
      | some plan =>
        if plan.status ≠ .awaiting_start then s
        else
          let s1 := addEff (.rpcStartPlan plan.id) s
          match oracle.startPlanResp plan.id with
          | .ok rplan =>
            let s2 := { s1 with store := updatePlan s1.store rplan }
            let s3 := emit (.planStart rplan) s2
            runCall env oracle siteId fuel .executeNextStep s3
          | .error e =>
            emit (.planError (some plan) e) s1
    | .executeNextStep =>
      -- lines 153-199
      match s.store.activePlan with
      | none => s
      | some plan =>
        let stepReady := plan.steps.find? (fun st => decide (st.status = .ready))
        let stepSel := match stepReady with
          | some st => some st
          | none => plan.steps.find? (fun st =>
              decide (st.status = StepStatus.awaiting_confirmation) && st.requires_user_confirmation)
        match stepSel with
        | none =>
          let allDone := plan.steps.all (fun st =>
            decide (st.status = StepStatus.completed) || decide (st.status = StepStatus.skipped) ||
              decide (st.status = StepStatus.failed))
          if allDone then
            let s1 := emit (.planComplete plan) s
            let s2 := { s1 with store := clearPlan s1.store true }
            doClearSaved siteId s2
          else s
        | some step =>
          if step.requires_user_confirmation && decide (step.status ≠ StepStatus.awaiting_confirmation) then
            let s1 := doUpdateStep step.id { status := some .awaiting_confirmation } s
            emit (.stepConfirm s1.store.activePlan step) s1
          else if step.status = .awaiting_confirmation then s
          else runCall env oracle siteId fuel (.executeStep step) s
    | .confirmStep stepId modifiedData =>
      -- lines 207-233
      match s.store.activePlan with
      | none => s
      | some plan =>
        match plan.steps.find? (fun st => decide (st.id = stepId)) with
        | none => s
        | some step =>
          let s1 := match modifiedData with
            | some md => doUpdateStep stepId
                { action_data := some (jsonMerge step.action_data md) } s
            | none => s
          match s1.store.activePlan with
          | none => s1
          | some updatedPlan =>
            match updatedPlan.steps.find? (fun st => decide (st.id = stepId)) with
            | none => s1
            | some updatedStep => runCall env oracle siteId fuel (.executeStep updatedStep) s1
    | .skipStep stepId =>
      -- lines 240-265
      match s.store.activePlan with
      | none => s
      | some plan =>
        match plan.steps.find? (fun st => decide (st.id = stepId)) with
        | none => s
        | some step =>
          let s1 := addEff (.rpcSkipStep plan.id stepId) s
          match oracle.skipStepResp plan.id stepId with
          | .ok rplan =>
            let s2 := { s1 with store := updatePlan s1.store rplan }
            let s3 := emit (.stepSkip (some rplan) step) s2
            runCall env oracle siteId fuel .executeNextStep s3
          | .error _ =>
            let s2 := doUpdateStep stepId { status := some .skipped } s1
            let s3 := emit (.stepSkip s2.store.activePlan step) s2
            runCall env oracle siteId fuel .executeNextStep s3
    | .retryStep stepId =>
      -- lines 272-315
      match s.store.activePlan with
      | none => s
      | some plan =>
        match plan.steps.find? (fun st => decide (st.id = stepId)) with
        | none => s
        | some step =>
          if ¬ step.is_retriable then s
          else if step.retry_count ≥ step.max_retries then s
          else
            let s1 := addEff (.rpcRetryStep plan.id stepId) s
            match oracle.retryStepResp plan.id stepId with
            | .ok rplan =>
              let s2 := { s1 with store := updatePlan s1.store rplan }
              let updatedStep := rplan.steps.find? (fun st => decide (st.id = stepId))
              let rc : Int := match updatedStep with
                | some u => if u.retry_count = 0 then step.retry_count + 1 else u.retry_count
                | none => step.retry_count + 1
              let s3 := emit (.stepRetry rplan (some (updatedStep.getD step)) rc) s2
              runCall env oracle siteId fuel .executeNextStep s3
            | .error e =>
              emit (.planError s1.store.activePlan e) s1
    | .cancel =>
      -- lines 320-340
      match s.store.activePlan with
      | none => s
      | some plan =>
        let s1 := addEff (.rpcCancelPlan plan.id) s
        match oracle.cancelPlanResp plan.id with
        | .ok rplan =>
          let s2 := { s1 with store := updatePlan s1.store rplan }
          let s3 := emit (.planCancel rplan) s2
          let s4 := { s3 with store := clearPlan s3.store true }
          doClearSaved siteId s4
        | .error _ =>
          let s2 := emit (.planCancel plan) s1
          let s3 := { s2 with store := clearPlan s2.store true }
          doClearSaved siteId s3
    | .completeStepByAction actionName success data =>
      -- lines 352-392
      match s.store.activePlan with
      | none => s
      | some plan =>
        match plan.steps.find? (fun st =>
            decide (st.action_name = actionName) && decide (st.status = .awaiting_result)) with
        | none => s
        | some step =>
          if success then
            runCall env oracle siteId fuel (.markStepComplete step.id data) s
          else
            let s1 := doUpdateStep step.id
              { status := some .failed,
                result := some (some (.obj [("error", .str "Action failed by host app")])) } s
            let refetched := s1.store.activePlan.bind
              (fun p => p.steps.find? (fun st => decide (st.id = step.id)))
            emit (.stepFailed s1.store.activePlan refetched
              "Action failed by host app" step.is_retriable) s1
    | .markStepDone stepId =>
      -- lines 402-422
      match s.store.activePlan with
      | none => s
      | some plan =>
        match plan.steps.find? (fun st => decide (st.id = stepId)) with
        | none => s
        | some step =>
          if step.status ≠ .awaiting_result then s
          else runCall env oracle siteId fuel (.markStepComplete stepId none) s
    | .markStepComplete stepId data =>
      -- lines 427-440
      let s1 := doUpdateStep stepId { status := some .completed, result := some data } s
      let updatedPlan := s1.store.activePlan
      let updatedStep := updatedPlan.bind (fun p => p.steps.find? (fun st => decide (st.id = stepId)))
      let s2 := emit (.stepComplete updatedPlan updatedStep true) s1
      runCall env oracle siteId fuel .executeNextStep s2
    | .executeStep step =>
      -- lines 445-590
      match s.store.activePlan with
      | none => s
      | some plan =>
        let s1 := doUpdateStep step.id { status := some .executing } s
        let s2 := emit (.stepActive s1.store.activePlan step) s1
        match runStepHandler env step s2 with
        | .error m => failCatch oracle plan step m s2
        | .ok (s3, result) =>
          if step.requires_result_feedback then
            let s4 := addEff (.rpcContinuePlan plan.id step.id result) s3
            match oracle.continuePlanResp plan.id step.id result with
            | .ok rplan =>
              let s5 := { s4 with store := updatePlan s4.store rplan }
              emit (.planUpdated rplan) s5
            | .error m => failCatch oracle plan step m s4
          else if step.auto_complete then
            let s4 := doUpdateStep step.id { status := some .completed, result := some result } s3
            let updatedPlan := s4.store.activePlan
            let updatedStep := updatedPlan.bind
              (fun p => p.steps.find? (fun st => decide (st.id = step.id)))
            let s5 := emit (.stepComplete updatedPlan (some (updatedStep.getD step)) true) s4
            runCall env oracle siteId fuel .executeNextStep s5
          else
            let s4 := doUpdateStep step.id { status := some .awaiting_result, result := some result } s3
            emit (.stepActive s4.store.activePlan step) s4

/-- `recoverPlan` (plan-executor.ts lines 68-110): load the persisted
candidate, fetch the authoritative plan, clear and bail on a non-active
status or a failed fetch, otherwise seed the store, emit `plan:updated`,
and resume stepping when the server status is `executing`.  Returns the
recovered plan or `null`. -/
def recoverPlan (env : ActionEnv) (oracle : ServerOracle) (siteId : String)
    (fuel : Nat) (s : ExecState) : ExecState × Option ExecutionPlan :=
  let loaded := loadSavedPlanFn siteId s.now s.storage
  let s0 := { s with storage := loaded.2 }
  match loaded.1 with
  | none => (s0, none)
  | some savedPlan =>
    let s1 := addEff (.rpcGetPlan savedPlan.id) s0
    match oracle.getPlanResp savedPlan.id with
    | .error _ => (doClearSaved siteId s1, none)
    | .ok latestPlan =>
      if ¬ activeStatuses.contains latestPlan.status then
        (doClearSaved siteId s1, none)
      else
        let s2 := { s1 with store := setPlan s1.store latestPlan }
        let s3 := emit (.planUpdated latestPlan) s2
        let s4 := if latestPlan.status = .executing then
            runCall env oracle siteId fuel .executeNextStep s3
          else s3
        (s4, some latestPlan)

/-! ## Association-list lemmas for the localStorage model -/

theorem find?_filter_subsumed {α : Type} (l : List α) (p q : α → Bool)
    (h : ∀ x, p x = true → q x = true) :
    (l.filter q).find? p = l.find? p := by
  induction l with
  | nil => rfl
  | cons a t ih =>
    by_cases hq : q a = true
    · rw [List.filter_cons_of_pos hq]
      by_cases hp : p a = true
      · rw [List.find?_cons_of_pos _ hp, List.find?_cons_of_pos _ hp]
      · rw [List.find?_cons_of_neg _ hp, List.find?_cons_of_neg _ hp, ih]
    · have hp : ¬ p a = true := fun hpa => hq (h a hpa)
      rw [List.filter_cons_of_neg (by simp [hq]), ih,
        List.find?_cons_of_neg _ hp]

theorem find?_key_in_filtered (ls : LocalStorage) (k : String) :
    (ls.filter (fun p => decide (p.1 ≠ k))).find? (fun p => decide (p.1 = k)) = none := by
  apply List.find?_eq_none.mpr
  intro p hp
  have hmem := (List.mem_filter.mp hp).2
  simp only [decide_eq_true_eq] at hmem ⊢
  exact hmem

theorem lsGet_lsSet_same (ls : LocalStorage) (key : String) (v : StoredPlanData) :
    lsGet (lsSet ls key v) key = some v := by
  unfold lsGet lsSet
  rw [List.find?_append, find?_key_in_filtered]
  simp [List.find?]

theorem lsGet_lsSet_ne (ls : LocalStorage) (kA kB : String) (v : StoredPlanData)
    (h : kB ≠ kA) :
    lsGet (lsSet ls kA v) kB = lsGet ls kB := by
  unfold lsGet lsSet
  rw [List.find?_append]
  rw [find?_filter_subsumed ls (fun p => decide (p.1 = kB)) (fun p => decide (p.1 ≠ kA))
    (by intro x hx; simp only [decide_eq_true_eq] at hx ⊢; rw [hx]; exact h)]
  cases hf : ls.find? (fun p => decide (p.1 = kB)) with
  | some x => rfl
  | none =>
    simp [List.find?, Option.orElse, Ne.symm h]

theorem lsGet_lsRemove_same (ls : LocalStorage) (k : String) :
    lsGet (lsRemove ls k) k = none := by
  unfold lsGet lsRemove
  rw [find?_key_in_filtered]
  rfl

/-! ## Claim C6 -/

/-- C6: after an `updatePlanStep` call whose partial update sets a
step's status to `completed`, the active plan's `completed_steps` equals
the number of steps whose status is `completed`, and every step whose id
differs from the given `stepId` is entirely unchanged (same position,
all fields). -/
theorem C6_updatePlanStep_cache (plan : ExecutionPlan) (hist : List ExecutionPlan)
    (stepId : String) (updates : StepPatch)
    (h : updates.status = some .completed) :
    ∃ plan', (updatePlanStep ⟨some plan, hist⟩ stepId updates).activePlan = some plan' ∧
      plan'.completed_steps =
        ((plan'.steps.filter (fun st => decide (st.status = .completed))).length : Int) ∧
      plan'.steps.length = plan.steps.length ∧
      ∀ i : Nat, (∀ st, plan.steps[i]? = some st → st.id ≠ stepId) →
        plan'.steps[i]? = plan.steps[i]? := by
  refine ⟨{ plan with
      steps := plan.steps.map (fun step =>
        if step.id = stepId then applyPatch step updates else step),
      completed_steps := (((plan.steps.map (fun step =>
          if step.id = stepId then applyPatch step updates else step)).filter
        (fun st => decide (st.status = .completed))).length : Int) }, ?_, rfl, ?_, ?_⟩
  · simp [updatePlanStep, h]
  · simp
  · intro i hid
    simp only [List.getElem?_map]
    cases hst : plan.steps[i]? with
    | none => rfl
    | some st =>
      have hne := hid st hst
      simp [if_neg hne]

def exStepA : ExecutionStep :=
  { id := "sA", index := 0, description := "first", action_name := "act_a",
    action_data := .obj [], execution_location := .client,
    requires_user_confirmation := false, requires_result_feedback := false,
    auto_run := true, auto_complete := true, confirmation_card_type := "",
    depends_on := [], status := .completed, result := none, error_message := "",
    retry_count := 0, max_retries := 3, is_retriable := true }

def exStepB : ExecutionStep :=
  { exStepA with
    id := "sB"
    index := 1
    description := "second"
    action_name := "act_b"
    status := .executing }

def exPlan : ExecutionPlan :=
  { id := "p1", goal := "goal", query := "query", status := .executing,
    auto_execute := true, total_steps := 2, completed_steps := 1,
    timeout_minutes := 30, steps := [exStepA, exStepB],
    created_at := none, completed_at := none }

theorem C6_updatePlanStep_cache_witness :
    ∃ plan', (updatePlanStep ⟨some exPlan, []⟩ "sB"
        { status := some .completed, result := some (some (.str "done")) }).activePlan =
          some plan' ∧
      plan'.completed_steps =
        ((plan'.steps.filter (fun st => decide (st.status = .completed))).length : Int) ∧
      plan'.steps.length = exPlan.steps.length ∧
      ∀ i : Nat, (∀ st, exPlan.steps[i]? = some st → st.id ≠ "sB") →
        plan'.steps[i]? = exPlan.steps[i]? :=
  C6_updatePlanStep_cache exPlan [] "sB"
    { status := some .completed, result := some (some (.str "done")) } rfl

/-! ## Claim C8 -/

/-- C8: for a plan with an active status, `savePlan(plan, "site-A")`
immediately followed by `loadSavedPlan("site-A")` within the timeout
window returns the very same plan, and `loadSavedPlan("site-B")` (whose
slot is empty) returns `null`. -/
theorem C8_persistence_roundtrip (plan : ExecutionPlan) (ls : LocalStorage) (t0 t1 : Int)
    (hactive : activeStatuses.contains plan.status = true)
    (hage : t1 - t0 ≤ (if plan.timeout_minutes = 0 then 30 else plan.timeout_minutes) * 60000)
    (hB : lsGet ls (getStorageKey "site-B") = none) :
    (loadSavedPlanFn "site-A" t1 (savePlanFn plan "site-A" t0 ls)).1 = some plan ∧
    (loadSavedPlanFn "site-B" t1 (savePlanFn plan "site-A" t0 ls)).1 = none := by
  have hsave : savePlanFn plan "site-A" t0 ls =
      lsSet ls (getStorageKey "site-A")
        { version := STORAGE_VERSION, plan := plan, siteId := "site-A", storedAt := t0 } := by
    unfold savePlanFn
    rw [if_neg (by decide), if_neg (not_not_intro hactive)]
  constructor
  · unfold loadSavedPlanFn
    rw [if_neg (by decide), hsave, lsGet_lsSet_same]
    simp only
    rw [if_neg (by decide), if_neg (by decide), if_neg (not_lt.mpr hage)]
  · unfold loadSavedPlanFn
    rw [if_neg (by decide), hsave,
      lsGet_lsSet_ne ls (getStorageKey "site-A") (getStorageKey "site-B") _ (by decide), hB]

theorem C8_persistence_roundtrip_witness :
    (loadSavedPlanFn "site-A" 1000 (savePlanFn exPlan "site-A" 0 [])).1 = some exPlan ∧
    (loadSavedPlanFn "site-B" 1000 (savePlanFn exPlan "site-A" 0 [])).1 = none :=
  C8_persistence_roundtrip exPlan [] 0 1000 (by decide) (by decide) rfl

/-! ## Claim C3 -/

/-- An action environment with nothing registered and no Pillar
singleton (no concrete claim here depends on handlers). -/
def noopEnv : ActionEnv :=
  { hasAction := fun _ => false, actionReturns := fun _ => false,
    runHandler := fun _ _ => .ok none, pillarAvailable := false }

/-- A server whose every round-trip rejects. -/
def netFailOracle : ServerOracle :=
  { startPlanResp := fun _ => .error "network error",
    skipStepResp := fun _ _ => .error "network error",
    retryStepResp := fun _ _ => .error "network error",
    failStepResp := fun _ _ _ => .error "network error",
    continuePlanResp := fun _ _ _ => .error "network error",
    cancelPlanResp := fun _ => .error "network error",
    getPlanResp := fun _ => .error "network error" }

/-- Scenario D oracle: `getPlan` reports the persisted plan finished. -/
def completedOracle : ServerOracle :=
  { netFailOracle with getPlanResp := fun _ => .ok { exPlan with status := .completed } }

/-- A state whose persisted slot holds `exPlan` (status `executing`)
saved moments ago under `site-A`. -/
def savedStateC3 : ExecState :=
  { store := ⟨none, []⟩,
    storage := [(getStorageKey "site-A",
      { version := 1, plan := exPlan, siteId := "site-A", storedAt := 0 })],
    now := 1000, effects := [] }

/-- C3: `recoverPlan` is fail-closed.  When persistence yields a
candidate: a `getPlan` response with a non-active status, or a rejected
`getPlan`, clears the persisted slot, leaves the store unseeded, and
returns `null`; a response with an active status is placed in the store
with a `plan:updated` event, is returned, and stepping resumes (the
continuation is exactly an `executeNextStep` run) precisely when that
status is `executing`. -/
theorem C3_recoverPlan_fail_closed (env : ActionEnv) (oracle : ServerOracle)
    (siteId : String) (fuel : Nat) (s : ExecState) (candidate : ExecutionPlan)
    (hload : (loadSavedPlanFn siteId s.now s.storage).1 = some candidate) :
    (∀ latest, oracle.getPlanResp candidate.id = .ok latest →
        activeStatuses.contains latest.status = false →
        (recoverPlan env oracle siteId fuel s).2 = none ∧
        (recoverPlan env oracle siteId fuel s).1.store = s.store ∧
        lsGet (recoverPlan env oracle siteId fuel s).1.storage (getStorageKey siteId) = none) ∧
    (∀ e, oracle.getPlanResp candidate.id = .error e →
        (recoverPlan env oracle siteId fuel s).2 = none ∧
        (recoverPlan env oracle siteId fuel s).1.store = s.store ∧
        lsGet (recoverPlan env oracle siteId fuel s).1.storage (getStorageKey siteId) = none) ∧
    (∀ latest, oracle.getPlanResp candidate.id = .ok latest →
        activeStatuses.contains latest.status = true →
        (recoverPlan env oracle siteId fuel s).2 = some latest ∧
        (latest.status ≠ .executing →
          (recoverPlan env oracle siteId fuel s).1.store.activePlan = some latest ∧
          Effect.ev (.planUpdated latest) ∈ (recoverPlan env oracle siteId fuel s).1.effects) ∧
        (latest.status = .executing →
          ∃ s', s'.store.activePlan = some latest ∧
            Effect.ev (.planUpdated latest) ∈ s'.effects ∧
            (recoverPlan env oracle siteId fuel s).1 =
              runCall env oracle siteId fuel .executeNextStep s')) := by
  have hsite : siteId ≠ "" := by
    intro hs
    rw [hs] at hload
    simp [loadSavedPlanFn] at hload
  have hclear : ∀ s₁ : ExecState,
      lsGet (doClearSaved siteId s₁).storage (getStorageKey siteId) = none := by
    intro s₁
    simp only [doClearSaved, clearSavedPlanFn, if_neg hsite]
    exact lsGet_lsRemove_same _ _
  simp only [recoverPlan]
  rw [hload]
  simp only []
  refine ⟨?_, ?_, ?_⟩
  · intro latest hok hina
    rw [hok]
    simp only []
    rw [if_pos (by rw [hina]; simp)]
    exact ⟨rfl, rfl, hclear _⟩
  · intro e herr
    rw [herr]
    exact ⟨rfl, rfl, hclear _⟩
  · intro latest hok hact
    rw [hok]
    simp only []
    rw [if_neg (not_not_intro hact)]
    refine ⟨rfl, ?_, ?_⟩
    · intro hne
      rw [if_neg hne]
      constructor
      · rfl
      · simp [emit]
    · intro hex
      rw [if_pos hex]
      refine ⟨_, ?_, ?_, rfl⟩
      · rfl
      · simp [emit]

theorem C3_recoverPlan_fail_closed_witness :
    (recoverPlan noopEnv completedOracle "site-A" 3 savedStateC3).2 = none ∧
    (recoverPlan noopEnv completedOracle "site-A" 3 savedStateC3).1.store =
      savedStateC3.store ∧
    lsGet (recoverPlan noopEnv completedOracle "site-A" 3 savedStateC3).1.storage
      (getStorageKey "site-A") = none :=
  (C3_recoverPlan_fail_closed noopEnv completedOracle "site-A" 3 savedStateC3
    exPlan (by decide)).1 { exPlan with status := .completed } rfl (by decide)

/-! ## Claim C7 -/

/-- The `plans/start` round-trips recorded in a trace. -/
def startRpcCount (s : ExecState) : Nat :=
  (s.effects.filter (fun e => match e with | .rpcStartPlan _ => true | _ => false)).length

/-- A pending plan awaiting an explicit start. -/
def awaitingPlan : ExecutionPlan :=
  { exPlan with
    status := .awaiting_start
    auto_execute := false
    steps := [{ exStepA with status := .pending }] }

def awaitingState : ExecState :=
  { store := ⟨some awaitingPlan, []⟩, storage := [], now := 0, effects := [] }

/-- C7 (counterexample): when the first `startPlan()` call's round-trip
rejects, the plan's status is still `awaiting_start`, so the second call
passes the guard and issues a second `plans/start` RPC — two calls in
immediate succession are not limited to one RPC. -/
theorem C7_counterexample :
    startRpcCount (runCall noopEnv netFailOracle "site-A" 3 .startPlan
      (runCall noopEnv netFailOracle "site-A" 3 .startPlan awaitingState)) = 2 := by
  decide

/-- C7 (amended): `startPlan` is idempotence-guarded — with no active
plan or a status other than `awaiting_start` it performs no RPC, no
state change and emits nothing (the state is returned unchanged);
consequently a second call right after a first one is a no-op exactly
when the first left the plan absent or out of `awaiting_start` (as the
normal success path does); a failed or status-preserving first
round-trip leaves the guard open. -/
theorem C7_startPlan_guard (env : ActionEnv) (oracle : ServerOracle) (siteId : String) :
    (∀ (fuel : Nat) (s : ExecState),
      (∀ p, s.store.activePlan = some p → p.status ≠ .awaiting_start) →
      runCall env oracle siteId (fuel + 1) .startPlan s = s) ∧
    (∀ (fuel₁ fuel₂ : Nat) (s : ExecState),
      (∀ p, (runCall env oracle siteId fuel₁ .startPlan s).store.activePlan = some p →
        p.status ≠ .awaiting_start) →
      runCall env oracle siteId (fuel₂ + 1) .startPlan
          (runCall env oracle siteId fuel₁ .startPlan s) =
        runCall env oracle siteId fuel₁ .startPlan s) := by
  have hguard : ∀ (fuel : Nat) (s : ExecState),
      (∀ p, s.store.activePlan = some p → p.status ≠ .awaiting_start) →
      runCall env oracle siteId (fuel + 1) .startPlan s = s := by
    intro fuel s h
    simp only [runCall]
    cases hap : s.store.activePlan with
    | none => rfl
    | some plan =>
      simp only []
      rw [if_pos (h plan hap)]
  exact ⟨hguard, fun fuel₁ fuel₂ s h => hguard fuel₂ _ h⟩

/-- A state whose active plan already finished. -/
def donePlanState : ExecState :=
  { store := ⟨some { exPlan with status := .completed }, []⟩,
    storage := [], now := 0, effects := [] }

theorem C7_startPlan_guard_witness :
    runCall noopEnv netFailOracle "site-A" 3 .startPlan donePlanState = donePlanState :=
  (C7_startPlan_guard noopEnv netFailOracle "site-A").1 2 donePlanState (by decide)

/-! ## Claim C5 -/

/-- C5: when a step's handler throws during `executeStep`, the executor
marks the step `executing`, attempts the server `failStep` round-trip
(visible in the trace), adopts the returned plan on success, or applies
the local-only `failed` patch carrying the exception's message on a
transport failure; it then emits `plan:step:failed` with `canRetry`
computed from the resulting step's `is_retriable` and
`retry_count < max_retries`, emits `plan:step:complete` with
`success = false`, and emits `plan:error` exactly when `canRetry` is
false.  The catch block swallows both errors, so the operation returns a
plain state (the model's total return type) — it never throws. -/
theorem failCatch_spec (oracle : ServerOracle) (plan : ExecutionPlan) (step : ExecutionStep)
    (msg : String) (s : ExecState) (u : ExecutionStep) (canRetry : Bool)
    (hu : u = ((failCatch oracle plan step msg s).store.activePlan.bind
      (fun p => p.steps.find? (fun st => decide (st.id = step.id)))).getD step)
    (hcr : canRetry = (u.is_retriable && decide (u.retry_count < u.max_retries))) :
    (∀ rplan, oracle.failStepResp plan.id step.id msg = .ok rplan →
      (failCatch oracle plan step msg s).store = updatePlan s.store rplan ∧
      (failCatch oracle plan step msg s).effects =
        s.effects ++ [Effect.rpcFailStep plan.id step.id msg,
          .ev (.stepFailed (some rplan) (some u) msg canRetry),
          .ev (.stepComplete (some rplan) (some u) false)] ++
        (if canRetry then [] else [.ev (.planError (some rplan) msg)])) ∧
    (∀ e, oracle.failStepResp plan.id step.id msg = .error e →
      (failCatch oracle plan step msg s).store =
        updatePlanStep s.store step.id { status := some .failed, error_message := some msg } ∧
      (failCatch oracle plan step msg s).effects =
        s.effects ++ [Effect.rpcFailStep plan.id step.id msg,
          .stepPatch step.id { status := some .failed, error_message := some msg },
          .ev (.stepFailed (failCatch oracle plan step msg s).store.activePlan (some u) msg canRetry),
          .ev (.stepComplete (failCatch oracle plan step msg s).store.activePlan (some u) false)] ++
        (if canRetry then []
         else [.ev (.planError (failCatch oracle plan step msg s).store.activePlan msg)])) := by
  subst hcr hu
  cases hfail : oracle.failStepResp plan.id step.id msg with
  | ok rplan =>
    refine ⟨?_, ?_⟩
    · intro r hr
      cases hr
      constructor
      · simp only [failCatch, hfail, emit, addEff, updatePlan]
        split <;> rfl
      · cases hfind : rplan.steps.find? (fun st => decide (st.id = step.id)) with
        | some uu =>
          by_cases hc : (uu.is_retriable && decide (uu.retry_count < uu.max_retries)) = true
          · simp [failCatch, hfail, hfind, emit, addEff, doUpdateStep, updatePlan, hc,
              List.append_assoc]
          · simp [failCatch, hfail, hfind, emit, addEff, doUpdateStep, updatePlan, hc,
              List.append_assoc]
        | none =>
          by_cases hc : (step.is_retriable && decide (step.retry_count < step.max_retries)) = true
          · simp [failCatch, hfail, hfind, emit, addEff, doUpdateStep, updatePlan, hc,
              List.append_assoc]
          · simp [failCatch, hfail, hfind, emit, addEff, doUpdateStep, updatePlan, hc,
              List.append_assoc]
    · intro e he
      cases he
  | error e0 =>
    refine ⟨?_, ?_⟩
    · intro r hr
      cases hr
    · intro e1 he
      cases he
      constructor
      · simp only [failCatch, hfail, emit, addEff, doUpdateStep]
        split <;> rfl
      · cases hfind : (updatePlanStep s.store step.id
            { status := some .failed, error_message := some msg }).activePlan.bind
              (fun p => p.steps.find? (fun st => decide (st.id = step.id))) with
        | some uu =>
          by_cases hc : (uu.is_retriable && decide (uu.retry_count < uu.max_retries)) = true
          · simp [failCatch, hfail, hfind, emit, addEff, doUpdateStep, updatePlan, hc,
              List.append_assoc]
          · simp [failCatch, hfail, hfind, emit, addEff, doUpdateStep, updatePlan, hc,
              List.append_assoc]
        | none =>
          by_cases hc : (step.is_retriable && decide (step.retry_count < step.max_retries)) = true
          · simp [failCatch, hfail, hfind, emit, addEff, doUpdateStep, updatePlan, hc,
              List.append_assoc]
          · simp [failCatch, hfail, hfind, emit, addEff, doUpdateStep, updatePlan, hc,
              List.append_assoc]

/-- C5: when a step's handler throws during `executeStep`, the executor
marks the step `executing`, attempts the server `failStep` round-trip
(visible in the trace), adopts the returned plan on success, or applies
the local-only `failed` patch carrying the exception's message on a
transport failure; it then emits `plan:step:failed` with `canRetry`
computed from the resulting step's `is_retriable` and
`retry_count < max_retries`, emits `plan:step:complete` with
`success = false`, and emits `plan:error` exactly when `canRetry` is
false.  The catch block swallows both errors, so the operation returns a
plain state (the model's total return type) — it never throws. -/
theorem C5_executeStep_failure (env : ActionEnv) (oracle : ServerOracle) (siteId : String)
    (fuel : Nat) (s : ExecState) (plan : ExecutionPlan) (step : ExecutionStep) (msg : String)
    (s' : ExecState) (u : ExecutionStep) (canRetry : Bool)
    (hplan : s.store.activePlan = some plan)
    (heff : s.effects = [])
    (hhandler : env.hasAction step.action_name = true)
    (hthrow : env.runHandler step.action_name step.action_data = .error msg)
    (hs' : s' = runCall env oracle siteId (fuel + 1) (.executeStep step) s)
    (hu : u = (s'.store.activePlan.bind
      (fun p => p.steps.find? (fun st => decide (st.id = step.id)))).getD step)
    (hcr : canRetry = (u.is_retriable && decide (u.retry_count < u.max_retries))) :
    (∀ rplan, oracle.failStepResp plan.id step.id msg = .ok rplan →
      s'.store.activePlan = some rplan ∧
      s'.effects =
        [Effect.stepPatch step.id { status := some .executing },
         .ev (.stepActive (updatePlanStep s.store step.id
           { status := some .executing }).activePlan step),
         .rpcFailStep plan.id step.id msg,
         .ev (.stepFailed (some rplan) (some u) msg canRetry),
         .ev (.stepComplete (some rplan) (some u) false)] ++
        (if canRetry then [] else [.ev (.planError (some rplan) msg)])) ∧
    (∀ e, oracle.failStepResp plan.id step.id msg = .error e →
      s'.store = updatePlanStep (updatePlanStep s.store step.id { status := some .executing })
        step.id { status := some .failed, error_message := some msg } ∧
      s'.effects =
        [Effect.stepPatch step.id { status := some .executing },
         .ev (.stepActive (updatePlanStep s.store step.id
           { status := some .executing }).activePlan step),
         .rpcFailStep plan.id step.id msg,
         .stepPatch step.id { status := some .failed, error_message := some msg },
         .ev (.stepFailed s'.store.activePlan (some u) msg canRetry),
         .ev (.stepComplete s'.store.activePlan (some u) false)] ++
        (if canRetry then [] else [.ev (.planError s'.store.activePlan msg)])) := by
  have hrsh : ∀ s₀ : ExecState, runStepHandler env step s₀ = .error msg := by
    intro s₀
    simp [runStepHandler, hhandler, hthrow]
  have hrun : s' = failCatch oracle plan step msg
      (emit (.stepActive (doUpdateStep step.id { status := some .executing } s).store.activePlan
        step) (doUpdateStep step.id { status := some .executing } s)) := by
    rw [hs']
    simp only [runCall, hplan]
    rw [hrsh]
  obtain ⟨hok, herr⟩ := failCatch_spec oracle plan step msg
    (emit (.stepActive (doUpdateStep step.id { status := some .executing } s).store.activePlan
      step) (doUpdateStep step.id { status := some .executing } s)) u canRetry
    (by rw [hu, hrun]) hcr
  refine ⟨?_, ?_⟩
  · intro r hr
    obtain ⟨hst, hef⟩ := hok r hr
    rw [← hrun] at hst hef
    constructor
    · rw [hst]
      rfl
    · rw [hef]
      simp [emit, addEff, doUpdateStep, heff]
  · intro e he
    obtain ⟨hst, hef⟩ := herr e he
    rw [← hrun] at hst hef
    constructor
    · rw [hst]
      rfl
    · rw [hef]
      simp [emit, addEff, doUpdateStep, heff]

/-- An environment whose registered handler for `exStepB`'s action
throws `"boom"`. -/
def throwEnv : ActionEnv :=
  { hasAction := fun n => decide (n = "act_b"), actionReturns := fun _ => false,
    runHandler := fun _ _ => .error "boom", pillarAvailable := false }

def c5State : ExecState :=
  { store := ⟨some exPlan, []⟩, storage := [], now := 0, effects := [] }

def c5Run : ExecState :=
  runCall throwEnv netFailOracle "site-A" 2 (.executeStep exStepB) c5State

def c5Step : ExecutionStep :=
  (c5Run.store.activePlan.bind
    (fun p => p.steps.find? (fun st => decide (st.id = exStepB.id)))).getD exStepB

theorem C5_executeStep_failure_witness :
    c5Run.store = updatePlanStep (updatePlanStep c5State.store exStepB.id
      { status := some .executing }) exStepB.id
      { status := some .failed, error_message := some "boom" } ∧
    c5Run.effects =
      [Effect.stepPatch exStepB.id { status := some .executing },
       .ev (.stepActive (updatePlanStep c5State.store exStepB.id
         { status := some .executing }).activePlan exStepB),
       .rpcFailStep exPlan.id exStepB.id "boom",
       .stepPatch exStepB.id { status := some .failed, error_message := some "boom" },
       .ev (.stepFailed c5Run.store.activePlan (some c5Step) "boom"
         (c5Step.is_retriable && decide (c5Step.retry_count < c5Step.max_retries))),
       .ev (.stepComplete c5Run.store.activePlan (some c5Step) false)] ++
      (if (c5Step.is_retriable && decide (c5Step.retry_count < c5Step.max_retries)) then []
       else [.ev (.planError c5Run.store.activePlan "boom")]) :=
  (C5_executeStep_failure throwEnv netFailOracle "site-A" 1 c5State exPlan exStepB "boom"
    c5Run c5Step (c5Step.is_retriable && decide (c5Step.retry_count < c5Step.max_retries))
    rfl rfl (by decide) rfl rfl rfl rfl).2 "network error" rfl

/-! ## Trace-counting lemmas for claims C1 and C9 -/

def isSavePlanCall : Effect → Bool
  | .savePlanCall _ _ => true
  | _ => false

/-- A recorded `updatePlanStep` call whose partial update sets status
`ready`. -/
def isReadyPatch : Effect → Bool
  | .stepPatch _ u => decide (u.status = some .ready)
  | _ => false

/-- The number of `savePlan` calls in a trace. -/
def saveCallCount (s : ExecState) : Nat := (s.effects.filter isSavePlanCall).length

/-- The number of local step patches setting status `ready` in a trace. -/
def readyPatchCount (s : ExecState) : Nat := (s.effects.filter isReadyPatch).length

theorem filterLen_singleton {α : Type} (p : α → Bool) (a : α) :
    (List.filter p [a]).length = if p a then 1 else 0 := by
  by_cases h : p a = true <;> simp [List.filter, h]

theorem filterLen_append_one {α : Type} (p : α → Bool) (l : List α) (a : α) :
    ((l ++ [a]).filter p).length = (l.filter p).length + (if p a then 1 else 0) := by
  rw [List.filter_append]
  by_cases h : p a = true <;> simp [List.filter, h]

theorem saveCallCount_emit (e : PlanEvent) (s : ExecState) :
    saveCallCount (emit e s) = saveCallCount s := by
  simp [saveCallCount, emit, filterLen_append_one, filterLen_singleton, isSavePlanCall]

theorem readyPatchCount_emit (e : PlanEvent) (s : ExecState) :
    readyPatchCount (emit e s) = readyPatchCount s := by
  simp [readyPatchCount, emit, filterLen_append_one, filterLen_singleton, isReadyPatch]

theorem saveCallCount_addEff (e : Effect) (s : ExecState) :
    saveCallCount (addEff e s) = saveCallCount s + (if isSavePlanCall e then 1 else 0) := by
  simp [saveCallCount, addEff, filterLen_append_one, filterLen_singleton]

theorem readyPatchCount_addEff (e : Effect) (s : ExecState) :
    readyPatchCount (addEff e s) = readyPatchCount s + (if isReadyPatch e then 1 else 0) := by
  simp [readyPatchCount, addEff, filterLen_append_one, filterLen_singleton]

theorem saveCallCount_doUpdateStep (stepId : String) (u : StepPatch) (s : ExecState) :
    saveCallCount (doUpdateStep stepId u s) = saveCallCount s := by
  simp [saveCallCount, doUpdateStep, filterLen_append_one, filterLen_singleton, isSavePlanCall]

theorem readyPatchCount_doUpdateStep (stepId : String) (u : StepPatch) (s : ExecState) :
    readyPatchCount (doUpdateStep stepId u s) =
      readyPatchCount s + (if u.status = some .ready then 1 else 0) := by
  simp [readyPatchCount, doUpdateStep, filterLen_append_one, filterLen_singleton, isReadyPatch]

theorem saveCallCount_doSavePlan (plan : ExecutionPlan) (siteId : String) (s : ExecState) :
    saveCallCount (doSavePlan plan siteId s) = saveCallCount s + 1 := by
  simp [saveCallCount, doSavePlan, filterLen_append_one, filterLen_singleton, isSavePlanCall]

theorem readyPatchCount_doSavePlan (plan : ExecutionPlan) (siteId : String) (s : ExecState) :
    readyPatchCount (doSavePlan plan siteId s) = readyPatchCount s := by
  simp [readyPatchCount, doSavePlan, filterLen_append_one, filterLen_singleton, isReadyPatch]

theorem saveCallCount_doClearSaved (siteId : String) (s : ExecState) :
    saveCallCount (doClearSaved siteId s) = saveCallCount s := by
  simp [saveCallCount, doClearSaved, filterLen_append_one, filterLen_singleton, isSavePlanCall]

theorem readyPatchCount_doClearSaved (siteId : String) (s : ExecState) :
    readyPatchCount (doClearSaved siteId s) = readyPatchCount s := by
  simp [readyPatchCount, doClearSaved, filterLen_append_one, filterLen_singleton, isReadyPatch]

theorem saveCallCount_withStore (s : ExecState) (st : PlanStore) :
    saveCallCount { s with store := st } = saveCallCount s := rfl

theorem readyPatchCount_withStore (s : ExecState) (st : PlanStore) :
    readyPatchCount { s with store := st } = readyPatchCount s := rfl

theorem saveCallCount_runStepHandler (env : ActionEnv) (step : ExecutionStep)
    (s s' : ExecState) (r : Option Json) (h : runStepHandler env step s = .ok (s', r)) :
    saveCallCount s' = saveCallCount s ∧ readyPatchCount s' = readyPatchCount s := by
  unfold runStepHandler at h
  by_cases h1 : env.hasAction step.action_name = true
  · rw [if_pos h1] at h
    cases hr : env.runHandler step.action_name step.action_data with
    | error m => rw [hr] at h; cases h
    | ok result =>
      rw [hr] at h
      simp only [] at h
      cases h
      cases r with
      | none =>
        split_ifs <;> exact ⟨rfl, rfl⟩
      | some rr =>
        split_ifs <;>
          simp [saveCallCount_addEff, readyPatchCount_addEff, isSavePlanCall, isReadyPatch]
  · rw [if_neg h1] at h
    by_cases h2 : env.pillarAvailable = true
    · rw [if_pos h2] at h
      cases h
      simp [saveCallCount_addEff, readyPatchCount_addEff, isSavePlanCall, isReadyPatch]
    · rw [if_neg h2] at h
      cases h

theorem saveCallCount_failCatch (oracle : ServerOracle) (plan : ExecutionPlan)
    (step : ExecutionStep) (msg : String) (s : ExecState) :
    saveCallCount (failCatch oracle plan step msg s) = saveCallCount s ∧
    readyPatchCount (failCatch oracle plan step msg s) = readyPatchCount s := by
  unfold failCatch
  cases oracle.failStepResp plan.id step.id msg <;>
    simp only [] <;> split <;>
    simp [saveCallCount_emit, readyPatchCount_emit, saveCallCount_addEff,
      readyPatchCount_addEff, saveCallCount_doUpdateStep, readyPatchCount_doUpdateStep,
      saveCallCount_withStore, readyPatchCount_withStore, isSavePlanCall, isReadyPatch]

/-- The number of `savePlan` calls one unit of fuel adds:
`handlePlanReceived` adds exactly one, every other entry point none. -/
def hprBonus (fuel : Nat) (c : ExecCall) : Nat :=
  if fuel = 0 then 0
  else match c with
    | .handlePlanReceived _ => 1
    | _ => 0

/-- Trace audit of the whole executor: an invocation of
`handlePlanReceived` performs exactly one `savePlan` call and any other
operation performs none; and no operation ever records an
`updatePlanStep` whose partial update sets a step's status to `ready`. -/
theorem counts_runCall (env : ActionEnv) (oracle : ServerOracle) (siteId : String) :
    ∀ (fuel : Nat) (c : ExecCall) (s : ExecState),
      saveCallCount (runCall env oracle siteId fuel c s) = saveCallCount s + hprBonus fuel c ∧
      readyPatchCount (runCall env oracle siteId fuel c s) = readyPatchCount s := by
  intro fuel
  induction fuel with
  | zero => intro c s; simp [runCall, hprBonus]
  | succ n ih =>
    intro c s
    cases c with
    | executeStep step =>
      simp only [runCall]
      split
      · simp [hprBonus]
      · rename_i plan hplan
        split
        · rw [(saveCallCount_failCatch oracle plan step _ _).1,
            (saveCallCount_failCatch oracle plan step _ _).2]
          simp [saveCallCount_emit, readyPatchCount_emit, saveCallCount_doUpdateStep,
            readyPatchCount_doUpdateStep, saveCallCount_withStore,
            readyPatchCount_withStore, hprBonus]
        · rename_i s3 result heq
          obtain ⟨hh1, hh2⟩ := saveCallCount_runStepHandler env step _ s3 result heq
          repeat' split
          all_goals
            first
            | (rw [(ih _ _).1, (ih _ _).2]
               simp [hh1, hh2, saveCallCount_emit, readyPatchCount_emit,
                 saveCallCount_addEff, readyPatchCount_addEff, saveCallCount_doUpdateStep,
                 readyPatchCount_doUpdateStep, saveCallCount_withStore,
                 readyPatchCount_withStore, isSavePlanCall, isReadyPatch, hprBonus])
            | (rw [(saveCallCount_failCatch oracle plan step _ _).1,
                 (saveCallCount_failCatch oracle plan step _ _).2]
               simp [hh1, hh2, saveCallCount_emit, readyPatchCount_emit,
                 saveCallCount_addEff, readyPatchCount_addEff, saveCallCount_doUpdateStep,
                 readyPatchCount_doUpdateStep, saveCallCount_withStore,
                 readyPatchCount_withStore, isSavePlanCall, isReadyPatch, hprBonus])
            | simp [hh1, hh2, saveCallCount_emit, readyPatchCount_emit,
                saveCallCount_addEff, readyPatchCount_addEff, saveCallCount_doUpdateStep,
                readyPatchCount_doUpdateStep, saveCallCount_withStore,
                readyPatchCount_withStore, isSavePlanCall, isReadyPatch, hprBonus]
    | _ =>
      simp only [runCall]
      repeat' split
      all_goals
        first
        | (rw [(ih _ _).1, (ih _ _).2]
           simp [saveCallCount_emit, readyPatchCount_emit, saveCallCount_addEff,
             readyPatchCount_addEff, saveCallCount_doUpdateStep, readyPatchCount_doUpdateStep,
             saveCallCount_doSavePlan, readyPatchCount_doSavePlan, saveCallCount_doClearSaved,
             readyPatchCount_doClearSaved, saveCallCount_withStore, readyPatchCount_withStore,
             isSavePlanCall, isReadyPatch, hprBonus])
        | simp [saveCallCount_emit, readyPatchCount_emit, saveCallCount_addEff,
            readyPatchCount_addEff, saveCallCount_doUpdateStep, readyPatchCount_doUpdateStep,
            saveCallCount_doSavePlan, readyPatchCount_doSavePlan, saveCallCount_doClearSaved,
            readyPatchCount_doClearSaved, saveCallCount_withStore, readyPatchCount_withStore,
            isSavePlanCall, isReadyPatch, hprBonus]

/-- The `savePlan` calls of a trace, with their arguments. -/
def savesOf (s : ExecState) : List Effect := s.effects.filter isSavePlanCall

theorem savesOf_emit (e : PlanEvent) (s : ExecState) : savesOf (emit e s) = savesOf s := by
  simp [savesOf, emit, List.filter_append, List.filter, isSavePlanCall]

theorem savesOf_addEff (e : Effect) (s : ExecState) :
    savesOf (addEff e s) = savesOf s ++ (if isSavePlanCall e then [e] else []) := by
  by_cases h : isSavePlanCall e = true <;>
    simp [savesOf, addEff, List.filter_append, List.filter, h]

theorem savesOf_doUpdateStep (stepId : String) (u : StepPatch) (s : ExecState) :
    savesOf (doUpdateStep stepId u s) = savesOf s := by
  simp [savesOf, doUpdateStep, List.filter_append, List.filter, isSavePlanCall]

theorem savesOf_doSavePlan (plan : ExecutionPlan) (siteId : String) (s : ExecState) :
    savesOf (doSavePlan plan siteId s) = savesOf s ++ [.savePlanCall siteId plan.id] := by
  simp [savesOf, doSavePlan, List.filter_append, List.filter, isSavePlanCall]

theorem savesOf_doClearSaved (siteId : String) (s : ExecState) :
    savesOf (doClearSaved siteId s) = savesOf s := by
  simp [savesOf, doClearSaved, List.filter_append, List.filter, isSavePlanCall]

theorem savesOf_withStore (s : ExecState) (st : PlanStore) :
    savesOf { s with store := st } = savesOf s := rfl

theorem savesOf_runStepHandler (env : ActionEnv) (step : ExecutionStep)
    (s s' : ExecState) (r : Option Json) (h : runStepHandler env step s = .ok (s', r)) :
    savesOf s' = savesOf s := by
  unfold runStepHandler at h
  by_cases h1 : env.hasAction step.action_name = true
  · rw [if_pos h1] at h
    cases hr : env.runHandler step.action_name step.action_data with
    | error m => rw [hr] at h; cases h
    | ok result =>
      rw [hr] at h
      simp only [] at h
      cases h
      cases r with
      | none => split_ifs <;> rfl
      | some rr =>
        split_ifs <;> simp [savesOf_addEff, isSavePlanCall]
  · rw [if_neg h1] at h
    by_cases h2 : env.pillarAvailable = true
    · rw [if_pos h2] at h
      cases h
      simp [savesOf_addEff, isSavePlanCall]
    · rw [if_neg h2] at h
      cases h

theorem savesOf_failCatch (oracle : ServerOracle) (plan : ExecutionPlan)
    (step : ExecutionStep) (msg : String) (s : ExecState) :
    savesOf (failCatch oracle plan step msg s) = savesOf s := by
  unfold failCatch
  cases oracle.failStepResp plan.id step.id msg <;>
    simp only [] <;> split <;>
    simp [savesOf_emit, savesOf_addEff, savesOf_doUpdateStep, savesOf_withStore, isSavePlanCall]

/-- The `savePlan` calls one unit of fuel adds. -/
def hprSaves (siteId : String) (fuel : Nat) (c : ExecCall) : List Effect :=
  if fuel = 0 then []
  else match c with
    | .handlePlanReceived p => [.savePlanCall siteId p.id]
    | _ => []

/-- The `savePlan` calls of a whole executor operation:
`handlePlanReceived plan` records exactly one — with the executor's
`siteId` and the received plan's id — and every other operation records
none. -/
theorem savesOf_runCall (env : ActionEnv) (oracle : ServerOracle) (siteId : String) :
    ∀ (fuel : Nat) (c : ExecCall) (s : ExecState),
      savesOf (runCall env oracle siteId fuel c s) = savesOf s ++ hprSaves siteId fuel c := by
  intro fuel
  induction fuel with
  | zero => intro c s; simp [runCall, hprSaves]
  | succ n ih =>
    intro c s
    cases c with
    | executeStep step =>
      simp only [runCall]
      split
      · simp [hprSaves]
      · rename_i plan hplan
        split
        · rw [savesOf_failCatch oracle plan step]
          simp [savesOf_emit, savesOf_doUpdateStep, savesOf_withStore, hprSaves]
        · rename_i s3 result heq
          have hh := savesOf_runStepHandler env step _ s3 result heq
          repeat' split
          all_goals
            first
            | (rw [ih]
               simp [hh, savesOf_emit, savesOf_addEff, savesOf_doUpdateStep,
                 savesOf_withStore, isSavePlanCall, hprSaves])
            | (rw [savesOf_failCatch oracle plan step]
               simp [hh, savesOf_emit, savesOf_addEff, savesOf_doUpdateStep,
                 savesOf_withStore, isSavePlanCall, hprSaves])
            | simp [hh, savesOf_emit, savesOf_addEff, savesOf_doUpdateStep,
                savesOf_withStore, isSavePlanCall, hprSaves]
    | _ =>
      simp only [runCall]
      repeat' split
      all_goals
        first
        | (rw [ih]
           simp [savesOf_emit, savesOf_addEff, savesOf_doUpdateStep, savesOf_doSavePlan,
             savesOf_doClearSaved, savesOf_withStore, isSavePlanCall, hprSaves])
        | simp [savesOf_emit, savesOf_addEff, savesOf_doUpdateStep, savesOf_doSavePlan,
            savesOf_doClearSaved, savesOf_withStore, isSavePlanCall, hprSaves]

/-! ## Claim C1 -/

def planB : ExecutionPlan :=
  { exPlan with steps := [{ exStepA with id := "sA", status := .ready },
                          { exStepB with id := "sB", status := .pending }] }

/-- The skip response the server returns in the C1 scenario: the first
step skipped, the second still pending. -/
def planBSkipped : ExecutionPlan :=
  { planB with steps := [{ exStepA with id := "sA", status := .skipped },
                         { exStepB with id := "sB", status := .pending }] }

def skipOracle : ServerOracle :=
  { netFailOracle with skipStepResp := fun _ _ => .ok planBSkipped }

def c1State : ExecState :=
  { store := ⟨some planB, []⟩, storage := [], now := 0, effects := [] }

/-- C1 (counterexample): a successful `skipStep` changes the first
step's status from `ready` to `skipped` (the store now holds the
server's updated plan) yet the whole operation performs no `savePlan`
call — the mutation is not persisted before `skipStep` returns. -/
theorem C1_counterexample :
    (runCall noopEnv skipOracle "site-A" 4 (.skipStep "sA") c1State).store.activePlan =
      some planBSkipped ∧
    savesOf (runCall noopEnv skipOracle "site-A" 4 (.skipStep "sA") c1State) = [] := by
  constructor
  · decide
  · decide

/-- C1 (amended): of the executor's operations only `handlePlanReceived`
writes the plan to persistence — it performs exactly one `savePlan` call
carrying the executor's `siteId` and the received plan's id before
returning; `confirmStep`, `skipStep`, `retryStep`, `markStepDone`,
`completeStepByAction`, `executeStep` and the rest perform no `savePlan`
call at all (their mutations reach persistence at most through
`clearSavedPlan` when the plan completes or is cancelled). -/
theorem C1_persistence_only_on_receive (env : ActionEnv) (oracle : ServerOracle)
    (siteId : String) :
    (∀ (fuel : Nat) (plan : ExecutionPlan) (s : ExecState),
      savesOf (runCall env oracle siteId (fuel + 1) (.handlePlanReceived plan) s) =
        savesOf s ++ [Effect.savePlanCall siteId plan.id]) ∧
    (∀ (fuel : Nat) (c : ExecCall) (s : ExecState), (∀ p, c ≠ .handlePlanReceived p) →
      savesOf (runCall env oracle siteId fuel c s) = savesOf s) := by
  constructor
  · intro fuel plan s
    rw [savesOf_runCall]
    simp [hprSaves]
  · intro fuel c s hc
    rw [savesOf_runCall]
    have hz : hprSaves siteId fuel c = [] := by
      unfold hprSaves
      split
      · rfl
      · cases c with
        | handlePlanReceived p => exact absurd rfl (hc p)
        | _ => rfl
    rw [hz, List.append_nil]

theorem C1_persistence_only_on_receive_witness :
    savesOf (runCall noopEnv skipOracle "site-A" 4 (.handlePlanReceived planB) c1State) =
      savesOf c1State ++ [Effect.savePlanCall "site-A" planB.id] ∧
    savesOf (runCall noopEnv skipOracle "site-A" 4 (.skipStep "sA") c1State) =
      savesOf c1State :=
  ⟨(C1_persistence_only_on_receive noopEnv skipOracle "site-A").1 3 planB c1State,
   (C1_persistence_only_on_receive noopEnv skipOracle "site-A").2 4 (.skipStep "sA") c1State
     (by intro p h; cases h)⟩

/-! ## Claim C9 -/

/-- C9: no local mutation ever promotes a step to `ready` — across every
executor operation the trace records no `updatePlanStep` whose partial
update sets status `ready` (a `pending` step becomes `ready` only by
adopting a whole server-provided plan through `setPlan`/`updatePlan`);
consequently, when every step of the active plan is `pending` or
terminal with at least one still `pending`, `executeNextStep` selects no
step, executes nothing, emits nothing and leaves the state untouched
(no `plan:complete`). -/
theorem C9_pending_never_promoted (env : ActionEnv) (oracle : ServerOracle) (siteId : String) :
    (∀ (fuel : Nat) (c : ExecCall) (s : ExecState),
      readyPatchCount (runCall env oracle siteId fuel c s) = readyPatchCount s) ∧
    (∀ (fuel : Nat) (s : ExecState) (plan : ExecutionPlan),
      s.store.activePlan = some plan →
      (∀ st ∈ plan.steps, st.status = .pending ∨ st.status = .completed ∨
        st.status = .skipped ∨ st.status = .failed) →
      (∃ st ∈ plan.steps, st.status = .pending) →
      runCall env oracle siteId fuel .executeNextStep s = s) := by
  constructor
  · intro fuel c s
    exact (counts_runCall env oracle siteId fuel c s).2
  · intro fuel s plan hplan hall hpend
    cases fuel with
    | zero => rfl
    | succ n =>
      simp only [runCall, hplan]
      have h1 : plan.steps.find? (fun st => decide (st.status = StepStatus.ready)) = none := by
        apply List.find?_eq_none.mpr
        intro st hst
        rcases hall st hst with h | h | h | h <;> simp [h]
      have h2 : plan.steps.find? (fun st =>
          decide (st.status = StepStatus.awaiting_confirmation) &&
            st.requires_user_confirmation) = none := by
        apply List.find?_eq_none.mpr
        intro st hst
        rcases hall st hst with h | h | h | h <;> simp [h]
      rw [h1, h2]
      simp only []
      cases hdone : plan.steps.all (fun st =>
          decide (st.status = StepStatus.completed) || decide (st.status = StepStatus.skipped) ||
            decide (st.status = StepStatus.failed)) with
      | false => rfl
      | true =>
        obtain ⟨st, hst, hp⟩ := hpend
        have := List.all_eq_true.mp hdone st hst
        rw [hp] at this
        simp at this

def stalledPlan : ExecutionPlan :=
  { exPlan with steps := [{ exStepA with status := .completed },
                          { exStepB with status := .pending }] }

def stalledState : ExecState :=
  { store := ⟨some stalledPlan, []⟩, storage := [], now := 0, effects := [] }

theorem C9_pending_never_promoted_witness :
    readyPatchCount (runCall noopEnv netFailOracle "site-A" 5 (.markStepDone "sA")
      stalledState) = readyPatchCount stalledState ∧
    runCall noopEnv netFailOracle "site-A" 5 .executeNextStep stalledState = stalledState :=
  ⟨(C9_pending_never_promoted noopEnv netFailOracle "site-A").1 5 (.markStepDone "sA")
      stalledState,
   (C9_pending_never_promoted noopEnv netFailOracle "site-A").2 5 stalledState stalledPlan
     rfl (by decide) (by decide)⟩

/-! ## Claim C10

The executor never reads a step's `auto_run` flag.  This is rendered as
an invariance: relabelling every step's `auto_run` (by an arbitrary
per-step-id assignment `g`, applied uniformly to the state, the call
argument and the server's responses) commutes with running any executor
operation. -/

/-- Overwrite a step's `auto_run` flag with `g step.id`. -/
def arStep (g : String → Bool) (st : ExecutionStep) : ExecutionStep :=
  { st with auto_run := g st.id }

def arPlan (g : String → Bool) (p : ExecutionPlan) : ExecutionPlan :=
  { p with steps := p.steps.map (arStep g) }

def arStore (g : String → Bool) (store : PlanStore) : PlanStore :=
  { activePlan := store.activePlan.map (arPlan g),
    planHistory := store.planHistory.map (arPlan g) }

def arStored (g : String → Bool) (d : StoredPlanData) : StoredPlanData :=
  { d with plan := arPlan g d.plan }

def arStorage (g : String → Bool) (ls : LocalStorage) : LocalStorage :=
  ls.map (fun p => (p.1, arStored g p.2))

def arEvent (g : String → Bool) : PlanEvent → PlanEvent
  | .planStart p => .planStart (arPlan g p)
  | .stepActive p st => .stepActive (p.map (arPlan g)) (arStep g st)
  | .stepConfirm p st => .stepConfirm (p.map (arPlan g)) (arStep g st)
  | .stepComplete p st ok => .stepComplete (p.map (arPlan g)) (st.map (arStep g)) ok
  | .stepSkip p st => .stepSkip (p.map (arPlan g)) (arStep g st)
  | .stepFailed p st m c => .stepFailed (p.map (arPlan g)) (st.map (arStep g)) m c
  | .stepRetry p st n => .stepRetry (arPlan g p) (st.map (arStep g)) n
  | .planUpdated p => .planUpdated (arPlan g p)
  | .planComplete p => .planComplete (arPlan g p)
  | .planCancel p => .planCancel (arPlan g p)
  | .planError p m => .planError (p.map (arPlan g)) m

def arEffect (g : String → Bool) : Effect → Effect
  | .ev e => .ev (arEvent g e)
  | .rpcStartPlan a => .rpcStartPlan a
  | .rpcSkipStep a b => .rpcSkipStep a b
  | .rpcRetryStep a b => .rpcRetryStep a b
  | .rpcFailStep a b c => .rpcFailStep a b c
  | .rpcContinuePlan a b r => .rpcContinuePlan a b r
  | .rpcCancelPlan a => .rpcCancelPlan a
  | .rpcGetPlan a => .rpcGetPlan a
  | .rpcSendActionResult a r => .rpcSendActionResult a r
  | .execTask a b => .execTask a b
  | .savePlanCall a b => .savePlanCall a b
  | .clearSavedPlanCall a => .clearSavedPlanCall a
  | .stepPatch a u => .stepPatch a u

def arState (g : String → Bool) (s : ExecState) : ExecState :=
  { store := arStore g s.store, storage := arStorage g s.storage,
    now := s.now, effects := s.effects.map (arEffect g) }

def arCall (g : String → Bool) : ExecCall → ExecCall
  | .handlePlanReceived p => .handlePlanReceived (arPlan g p)
  | .executeStep st => .executeStep (arStep g st)
  | .startPlan => .startPlan
  | .executeNextStep => .executeNextStep
  | .confirmStep a m => .confirmStep a m
  | .skipStep a => .skipStep a
  | .retryStep a => .retryStep a
  | .cancel => .cancel
  | .completeStepByAction a b d => .completeStepByAction a b d
  | .markStepDone a => .markStepDone a
  | .markStepComplete a d => .markStepComplete a d

def arOracle (g : String → Bool) (o : ServerOracle) : ServerOracle :=
  { startPlanResp := fun a => (o.startPlanResp a).map (arPlan g),
    skipStepResp := fun a b => (o.skipStepResp a b).map (arPlan g),
    retryStepResp := fun a b => (o.retryStepResp a b).map (arPlan g),
    failStepResp := fun a b c => (o.failStepResp a b c).map (arPlan g),
    continuePlanResp := fun a b r => (o.continuePlanResp a b r).map (arPlan g),
    cancelPlanResp := fun a => (o.cancelPlanResp a).map (arPlan g),
    getPlanResp := fun a => (o.getPlanResp a).map (arPlan g) }

@[simp] theorem arStep_id (g : String → Bool) (st : ExecutionStep) :
    (arStep g st).id = st.id := rfl

@[simp] theorem arStep_status (g : String → Bool) (st : ExecutionStep) :
    (arStep g st).status = st.status := rfl

@[simp] theorem arStep_action_name (g : String → Bool) (st : ExecutionStep) :
    (arStep g st).action_name = st.action_name := rfl

@[simp] theorem arStep_action_data (g : String → Bool) (st : ExecutionStep) :
    (arStep g st).action_data = st.action_data := rfl

@[simp] theorem arStep_ruc (g : String → Bool) (st : ExecutionStep) :
    (arStep g st).requires_user_confirmation = st.requires_user_confirmation := rfl

@[simp] theorem arStep_rrf (g : String → Bool) (st : ExecutionStep) :
    (arStep g st).requires_result_feedback = st.requires_result_feedback := rfl

@[simp] theorem arStep_auto_complete (g : String → Bool) (st : ExecutionStep) :
    (arStep g st).auto_complete = st.auto_complete := rfl

@[simp] theorem arStep_is_retriable (g : String → Bool) (st : ExecutionStep) :
    (arStep g st).is_retriable = st.is_retriable := rfl

@[simp] theorem arStep_retry_count (g : String → Bool) (st : ExecutionStep) :
    (arStep g st).retry_count = st.retry_count := rfl

@[simp] theorem arStep_max_retries (g : String → Bool) (st : ExecutionStep) :
    (arStep g st).max_retries = st.max_retries := rfl

@[simp] theorem arStep_applyPatch (g : String → Bool) (st : ExecutionStep) (u : StepPatch) :
    applyPatch (arStep g st) u = arStep g (applyPatch st u) := rfl

@[simp] theorem arPlan_id (g : String → Bool) (p : ExecutionPlan) :
    (arPlan g p).id = p.id := rfl

@[simp] theorem arPlan_status (g : String → Bool) (p : ExecutionPlan) :
    (arPlan g p).status = p.status := rfl

@[simp] theorem arPlan_auto_execute (g : String → Bool) (p : ExecutionPlan) :
    (arPlan g p).auto_execute = p.auto_execute := rfl

@[simp] theorem arPlan_completed_steps (g : String → Bool) (p : ExecutionPlan) :
    (arPlan g p).completed_steps = p.completed_steps := rfl

@[simp] theorem arPlan_steps (g : String → Bool) (p : ExecutionPlan) :
    (arPlan g p).steps = p.steps.map (arStep g) := rfl

@[simp] theorem arStore_activePlan (g : String → Bool) (store : PlanStore) :
    (arStore g store).activePlan = store.activePlan.map (arPlan g) := rfl

@[simp] theorem arStore_planHistory (g : String → Bool) (store : PlanStore) :
    (arStore g store).planHistory = store.planHistory.map (arPlan g) := rfl

@[simp] theorem arState_store (g : String → Bool) (s : ExecState) :
    (arState g s).store = arStore g s.store := rfl

@[simp] theorem arState_storage (g : String → Bool) (s : ExecState) :
    (arState g s).storage = arStorage g s.storage := rfl

@[simp] theorem arState_now (g : String → Bool) (s : ExecState) :
    (arState g s).now = s.now := rfl

@[simp] theorem arState_effects (g : String → Bool) (s : ExecState) :
    (arState g s).effects = s.effects.map (arEffect g) := rfl

@[simp] theorem arOracle_start (g : String → Bool) (o : ServerOracle) (a : String) :
    (arOracle g o).startPlanResp a = (o.startPlanResp a).map (arPlan g) := rfl

@[simp] theorem arOracle_skip (g : String → Bool) (o : ServerOracle) (a b : String) :
    (arOracle g o).skipStepResp a b = (o.skipStepResp a b).map (arPlan g) := rfl

@[simp] theorem arOracle_retry (g : String → Bool) (o : ServerOracle) (a b : String) :
    (arOracle g o).retryStepResp a b = (o.retryStepResp a b).map (arPlan g) := rfl

@[simp] theorem arOracle_fail (g : String → Bool) (o : ServerOracle) (a b c : String) :
    (arOracle g o).failStepResp a b c = (o.failStepResp a b c).map (arPlan g) := rfl

@[simp] theorem arOracle_continue (g : String → Bool) (o : ServerOracle) (a b : String)
    (r : Option Json) :
    (arOracle g o).continuePlanResp a b r = (o.continuePlanResp a b r).map (arPlan g) := rfl

@[simp] theorem arOracle_cancel (g : String → Bool) (o : ServerOracle) (a : String) :
    (arOracle g o).cancelPlanResp a = (o.cancelPlanResp a).map (arPlan g) := rfl

@[simp] theorem arOracle_get (g : String → Bool) (o : ServerOracle) (a : String) :
    (arOracle g o).getPlanResp a = (o.getPlanResp a).map (arPlan g) := rfl

theorem mapFind {α β : Type} (f : α → β) (p : β → Bool) :
    ∀ l : List α, (l.map f).find? p = (l.find? (fun a => p (f a))).map f := by
  intro l
  induction l with
  | nil => rfl
  | cons a t ih =>
    simp only [List.map_cons, List.find?]
    cases h : p (f a) with
    | true => simp [h]
    | false => simp [h, ih]

theorem mapAll {α β : Type} (f : α → β) (p : β → Bool) :
    ∀ l : List α, (l.map f).all p = l.all (fun a => p (f a)) := by
  intro l
  induction l with
  | nil => rfl
  | cons a t ih => simp [List.all_cons, ih]

theorem mapFilterLen {α β : Type} (f : α → β) (p : β → Bool) :
    ∀ l : List α, ((l.map f).filter p).length = (l.filter (fun a => p (f a))).length := by
  intro l
  induction l with
  | nil => rfl
  | cons a t ih =>
    simp only [List.map_cons, List.filter]
    cases h : p (f a) with
    | true => simp [h, ih]
    | false => simp [h, ih]

theorem mapFilterComm {α β : Type} (f : α → β) (p : β → Bool) (q : α → Bool)
    (h : ∀ a, p (f a) = q a) :
    ∀ l : List α, (l.map f).filter p = (l.filter q).map f := by
  intro l
  induction l with
  | nil => rfl
  | cons a t ih =>
    simp only [List.map_cons, List.filter, h a]
    cases hq : q a <;> simp [ih]

@[simp] theorem optMapGetD {α β : Type} (f : α → β) (o : Option α) (d : α) :
    (o.map f).getD (f d) = f (o.getD d) := by
  cases o <;> rfl

@[simp] theorem bindMapGetD {α β γ : Type} (h : β → γ) (f : α → Option β) (o : Option α)
    (d : β) :
    (o.bind fun a => (f a).map h).getD (h d) = h ((o.bind f).getD d) := by
  cases o with
  | none => rfl
  | some a =>
    simp only [Option.some_bind]
    exact optMapGetD h (f a) d

@[simp] theorem arBindFind (g : String → Bool) (o : Option ExecutionPlan) (sid : String) :
    (o.map (arPlan g)).bind (fun p => p.steps.find? (fun st => decide (st.id = sid))) =
      (o.bind (fun p => p.steps.find? (fun st => decide (st.id = sid)))).map (arStep g) := by
  cases o with
  | none => rfl
  | some p =>
    simp only [Option.map_some', Option.some_bind, arPlan_steps]
    rw [mapFind]
    simp

theorem arSetPlan (g : String → Bool) (store : PlanStore) (p : ExecutionPlan) :
    setPlan (arStore g store) (arPlan g p) = arStore g (setPlan store p) := by
  cases h : store.activePlan <;>
    simp [setPlan, arStore, h, List.map_append]

theorem arUpdatePlan (g : String → Bool) (store : PlanStore) (p : ExecutionPlan) :
    updatePlan (arStore g store) (arPlan g p) = arStore g (updatePlan store p) := rfl

theorem arClearPlan (g : String → Bool) (store : PlanStore) (b : Bool) :
    clearPlan (arStore g store) b = arStore g (clearPlan store b) := by
  cases h : store.activePlan with
  | none => simp [clearPlan, arStore, h]
  | some p =>
    cases b <;> simp [clearPlan, arStore, h, List.map_append]

theorem arUpdatePlanStep (g : String → Bool) (store : PlanStore) (sid : String)
    (u : StepPatch) :
    updatePlanStep (arStore g store) sid u = arStore g (updatePlanStep store sid u) := by
  cases h : store.activePlan with
  | none => simp [updatePlanStep, arStore, h]
  | some plan =>
    simp only [updatePlanStep, arStore_activePlan, h, Option.map_some', arPlan_steps,
      arPlan_completed_steps]
    have hsteps : (plan.steps.map (arStep g)).map
        (fun step => if step.id = sid then applyPatch step u else step) =
        (plan.steps.map (fun step => if step.id = sid then applyPatch step u else step)).map
          (arStep g) := by
      rw [List.map_map, List.map_map]
      apply List.map_congr_left
      intro st _
      simp only [Function.comp, arStep_id]
      by_cases hid : st.id = sid
      · rw [if_pos hid, if_pos hid, arStep_applyPatch]
      · rw [if_neg hid, if_neg hid]
    rw [hsteps]
    by_cases hc : u.status = some StepStatus.completed
    · rw [if_pos hc, if_pos hc]
      rw [mapFilterLen]
      simp [arStore, arPlan]
    · rw [if_neg hc, if_neg hc]
      simp [arStore, arPlan]

theorem arLsRemove (g : String → Bool) (ls : LocalStorage) (k : String) :
    lsRemove (arStorage g ls) k = arStorage g (lsRemove ls k) := by
  unfold lsRemove arStorage
  exact mapFilterComm _ _ _ (fun a => rfl) ls

theorem arLsSet (g : String → Bool) (ls : LocalStorage) (k : String) (v : StoredPlanData) :
    lsSet (arStorage g ls) k (arStored g v) = arStorage g (lsSet ls k v) := by
  unfold lsSet arStorage
  rw [List.map_append]
  rw [mapFilterComm (fun p => (p.1, arStored g p.2)) _ (fun p => decide (p.1 ≠ k))
    (fun a => rfl) ls]
  rfl

theorem arClearSavedFn (g : String → Bool) (site : String) (ls : LocalStorage) :
    clearSavedPlanFn site (arStorage g ls) = arStorage g (clearSavedPlanFn site ls) := by
  unfold clearSavedPlanFn
  split
  · rfl
  · exact arLsRemove g ls (getStorageKey site)

theorem arSavePlanFn (g : String → Bool) (plan : ExecutionPlan) (site : String) (now : Int)
    (ls : LocalStorage) :
    savePlanFn (arPlan g plan) site now (arStorage g ls) =
      arStorage g (savePlanFn plan site now ls) := by
  unfold savePlanFn
  simp only [arPlan_status]
  split
  · rfl
  · split
    · exact arClearSavedFn g site ls
    · exact arLsSet g ls (getStorageKey site)
        { version := STORAGE_VERSION, plan := plan, siteId := site, storedAt := now }

theorem arRunStepHandler (g : String → Bool) (env : ActionEnv) (step : ExecutionStep)
    (s : ExecState) :
    runStepHandler env (arStep g step) (arState g s) =
      match runStepHandler env step s with
      | .error m => .error m
      | .ok (s', r) => .ok (arState g s', r) := by
  unfold runStepHandler
  simp only [arStep_action_name, arStep_action_data, arStep_id]
  by_cases h1 : env.hasAction step.action_name = true
  · rw [if_pos h1, if_pos h1]
    cases hr : env.runHandler step.action_name step.action_data with
    | error m => simp only []
    | ok result =>
      simp only []
      by_cases h2 : env.actionReturns step.action_name = true
      · rw [if_pos h2, if_pos h2]
        cases result with
        | none => simp only []
        | some r =>
          simp only []
          by_cases h3 : env.pillarAvailable = true
          · rw [if_pos h3, if_pos h3]
            simp [arState, addEff, arEffect, List.map_append]
          · rw [if_neg h3, if_neg h3]
      · rw [if_neg h2, if_neg h2]
  · rw [if_neg h1, if_neg h1]
    by_cases h2 : env.pillarAvailable = true
    · rw [if_pos h2, if_pos h2]
      simp [arState, addEff, arEffect, List.map_append]
    · rw [if_neg h2, if_neg h2]

theorem arFailCatch (g : String → Bool) (oracle : ServerOracle) (plan : ExecutionPlan)
    (step : ExecutionStep) (msg : String) (s : ExecState) :
    failCatch (arOracle g oracle) (arPlan g plan) (arStep g step) msg (arState g s) =
      arState g (failCatch oracle plan step msg s) := by
  unfold failCatch
  simp only [arPlan_id, arStep_id, arOracle_fail]
  cases hr : oracle.failStepResp plan.id step.id msg with
  | ok rplan =>
    simp only [Except.map]
    simp only [updatePlan, addEff, arState_store, arStore_activePlan, Option.some_bind,
      arPlan_steps]
    rw [mapFind]
    simp only [arStep_id]
    cases hu : rplan.steps.find? (fun st => decide (st.id = step.id)) with
    | some u =>
      simp only [Option.map_some', arStep_is_retriable, arStep_retry_count,
        arStep_max_retries, optMapGetD]
      by_cases hc : (u.is_retriable && decide (u.retry_count < u.max_retries)) = true
      · rw [if_pos hc, if_pos hc]
        simp [arState, emit, arEvent, arEffect, arStore, List.map_append]
      · rw [if_neg hc, if_neg hc]
        simp [arState, emit, arEvent, arEffect, arStore, List.map_append]
    | none =>
      simp only [Option.map_none', arStep_is_retriable, arStep_retry_count,
        arStep_max_retries, Option.getD_none]
      by_cases hc : (step.is_retriable && decide (step.retry_count < step.max_retries)) = true
      · rw [if_pos hc, if_pos hc]
        simp [arState, emit, arEvent, arEffect, arStore, List.map_append]
      · rw [if_neg hc, if_neg hc]
        simp [arState, emit, arEvent, arEffect, arStore, List.map_append]
  | error e =>
    simp only [Except.map]
    simp only [addEff, arState_store]
    have hupd : updatePlanStep (arStore g s.store) step.id
        { status := some StepStatus.failed, error_message := some msg } =
        arStore g (updatePlanStep s.store step.id
          { status := some StepStatus.failed, error_message := some msg }) :=
      arUpdatePlanStep g s.store step.id _
    simp only [doUpdateStep, arState_store, arState_storage, arState_now, arState_effects,
      hupd, arStore_activePlan, arBindFind, optMapGetD, arStep_is_retriable,
      arStep_retry_count, arStep_max_retries]
    cases hu : (updatePlanStep s.store step.id
        { status := some StepStatus.failed, error_message := some msg }).activePlan.bind
        (fun p => p.steps.find? (fun st => decide (st.id = step.id))) with
    | some u =>
      simp only [Option.map_some', arStep_is_retriable, arStep_retry_count,
        arStep_max_retries, optMapGetD]
      by_cases hc : (u.is_retriable && decide (u.retry_count < u.max_retries)) = true
      · rw [if_pos hc, if_pos hc]
        simp [arState, emit, arEvent, arEffect, List.map_append]
      · rw [if_neg hc, if_neg hc]
        simp [arState, emit, arEvent, arEffect, List.map_append]
    | none =>
      simp only [Option.map_none', Option.getD_none]
      by_cases hc : (step.is_retriable && decide (step.retry_count < step.max_retries)) = true
      · rw [if_pos hc, if_pos hc]
        simp [arState, emit, arEvent, arEffect, List.map_append]
      · rw [if_neg hc, if_neg hc]
        simp [arState, emit, arEvent, arEffect, List.map_append]

theorem arRunCall (g : String → Bool) (env : ActionEnv) (oracle : ServerOracle)
    (siteId : String) :
    ∀ (fuel : Nat) (c : ExecCall) (s : ExecState),
      runCall env (arOracle g oracle) siteId fuel (arCall g c) (arState g s) =
        arState g (runCall env oracle siteId fuel c s) := by
  intro fuel
  induction fuel with
  | zero => intro c s; rfl
  | succ n ih =>
    intro c s
    cases c with
    | handlePlanReceived plan =>
      simp only [runCall, arCall]
      simp only [arPlan_auto_execute, arPlan_status]
      by_cases hc : (plan.auto_execute && decide (plan.status = PlanStatus.executing)) = true
      · rw [if_pos hc, if_pos hc]
        rw [← ih]
        simp only [arCall]
        congr 1
        simp [arState, emit, addEff, doSavePlan, arEvent, arEffect, arSetPlan, arSavePlanFn,
          List.map_append]
      · rw [if_neg hc, if_neg hc]
        simp [arState, emit, addEff, doSavePlan, arEvent, arEffect, arSetPlan, arSavePlanFn,
          List.map_append]
    | startPlan =>
      simp only [runCall, arCall]
      simp only [arState_store, arStore_activePlan]
      cases hap : s.store.activePlan with
      | none => simp [Option.map_none']
      | some plan =>
        simp only [Option.map_some', arPlan_status, arPlan_id]
        by_cases hst : plan.status ≠ PlanStatus.awaiting_start
        · rw [if_pos hst, if_pos hst]
        · rw [if_neg hst, if_neg hst]
          simp only [arOracle_start]
          cases hr : oracle.startPlanResp plan.id with
          | ok rplan =>
            simp only [Except.map]
            rw [← ih]
            simp only [arCall]
            congr 1
            simp [arState, emit, addEff, arEvent, arEffect, arUpdatePlan, List.map_append]
          | error e =>
            simp only [Except.map]
            simp [arState, emit, addEff, arEvent, arEffect, List.map_append]
    | executeNextStep =>
      simp only [runCall, arCall]
      simp only [arState_store, arStore_activePlan]
      cases hap : s.store.activePlan with
      | none => simp [Option.map_none']
      | some plan =>
        simp only [Option.map_some', arPlan_steps, mapFind, arStep_status]
        cases h1 : plan.steps.find? (fun st => decide (st.status = StepStatus.ready)) with
        | some st =>
          simp only [Option.map_some']
          simp only [arStep_ruc, arStep_status, arStep_id]
          by_cases hc1 : (st.requires_user_confirmation &&
              decide (st.status ≠ StepStatus.awaiting_confirmation)) = true
          · rw [if_pos hc1, if_pos hc1]
            simp [arState, emit, doUpdateStep, arEvent, arEffect, arUpdatePlanStep,
              List.map_append]
          · rw [if_neg hc1, if_neg hc1]
            by_cases hc2 : st.status = StepStatus.awaiting_confirmation
            · rw [if_pos hc2, if_pos hc2]
            · rw [if_neg hc2, if_neg hc2]
              exact ih (.executeStep st) s
        | none =>
          simp only [Option.map_none', mapFind, arStep_status, arStep_ruc]
          cases h2 : plan.steps.find? (fun st =>
              decide (st.status = StepStatus.awaiting_confirmation) &&
                st.requires_user_confirmation) with
          | some st =>
            simp only [Option.map_some']
            simp only [arStep_ruc, arStep_status, arStep_id]
            by_cases hc1 : (st.requires_user_confirmation &&
                decide (st.status ≠ StepStatus.awaiting_confirmation)) = true
            · rw [if_pos hc1, if_pos hc1]
              simp [arState, emit, doUpdateStep, arEvent, arEffect, arUpdatePlanStep,
                List.map_append]
            · rw [if_neg hc1, if_neg hc1]
              by_cases hc2 : st.status = StepStatus.awaiting_confirmation
              · rw [if_pos hc2, if_pos hc2]
              · rw [if_neg hc2, if_neg hc2]
                exact ih (.executeStep st) s
          | none =>
            simp only [Option.map_none', mapAll, arStep_status]
            by_cases hd : plan.steps.all (fun st =>
                decide (st.status = StepStatus.completed) ||
                  decide (st.status = StepStatus.skipped) ||
                    decide (st.status = StepStatus.failed)) = true
            · rw [if_pos hd, if_pos hd]
              simp [arState, emit, doClearSaved, arEvent, arEffect, arClearPlan,
                arClearSavedFn, List.map_append]
            · rw [if_neg hd, if_neg hd]
    | confirmStep sid md =>
      simp only [runCall, arCall]
      simp only [arState_store, arStore_activePlan]
      cases hap : s.store.activePlan with
      | none => simp [Option.map_none']
      | some plan =>
        simp only [Option.map_some', arPlan_steps, mapFind, arStep_id]
        cases h1 : plan.steps.find? (fun st => decide (st.id = sid)) with
        | none => simp [Option.map_none']
        | some step =>
          simp only [Option.map_some', arStep_action_data]
          cases hm : md with
          | none =>
            simp only [arState_store, arStore_activePlan, hap, Option.map_some', arPlan_steps,
              mapFind, arStep_id, h1]
            exact ih (.executeStep step) s
          | some mdata =>
            simp only []
            have h2 : doUpdateStep sid
                { action_data := some (jsonMerge step.action_data mdata) } (arState g s) =
                arState g (doUpdateStep sid
                  { action_data := some (jsonMerge step.action_data mdata) } s) := by
              simp [arState, doUpdateStep, arEffect, arUpdatePlanStep, List.map_append]
            rw [h2]
            generalize doUpdateStep sid
              { action_data := some (jsonMerge step.action_data mdata) } s = s1
            simp only [arState_store, arStore_activePlan]
            cases h3 : s1.store.activePlan with
            | none => simp [Option.map_none']
            | some uplan =>
              simp only [Option.map_some', arPlan_steps, mapFind, arStep_id]
              cases h4 : uplan.steps.find? (fun st => decide (st.id = sid)) with
              | none => simp [Option.map_none']
              | some ustep =>
                simp only [Option.map_some']
                exact ih (.executeStep ustep) s1
    | skipStep sid =>
      simp only [runCall, arCall]
      simp only [arState_store, arStore_activePlan]
      cases hap : s.store.activePlan with
      | none => simp [Option.map_none']
      | some plan =>
        simp only [Option.map_some', arPlan_steps, mapFind, arStep_id]
        cases h1 : plan.steps.find? (fun st => decide (st.id = sid)) with
        | none => simp [Option.map_none']
        | some step =>
          simp only [Option.map_some', arPlan_id, arOracle_skip]
          cases hr : oracle.skipStepResp plan.id sid with
          | ok rplan =>
            simp only [Except.map]
            rw [← ih]
            simp only [arCall]
            congr 1
            simp [arState, emit, addEff, arEvent, arEffect, arUpdatePlan, List.map_append]
          | error e =>
            simp only [Except.map]
            rw [← ih]
            simp only [arCall]
            congr 1
            simp [arState, emit, addEff, doUpdateStep, arEvent, arEffect, arUpdatePlanStep,
              List.map_append]
    | retryStep sid =>
      simp only [runCall, arCall]
      simp only [arState_store, arStore_activePlan]
      cases hap : s.store.activePlan with
      | none => simp [Option.map_none']
      | some plan =>
        simp only [Option.map_some', arPlan_steps, mapFind, arStep_id]
        cases h1 : plan.steps.find? (fun st => decide (st.id = sid)) with
        | none => simp [Option.map_none']
        | some step =>
          simp only [Option.map_some', arStep_is_retriable, arStep_retry_count,
            arStep_max_retries, arPlan_id, arOracle_retry]
          by_cases hb1 : ¬ step.is_retriable = true
          · rw [if_pos hb1, if_pos hb1]
          · rw [if_neg hb1, if_neg hb1]
            by_cases hb2 : step.retry_count ≥ step.max_retries
            · rw [if_pos hb2, if_pos hb2]
            · rw [if_neg hb2, if_neg hb2]
              cases hr : oracle.retryStepResp plan.id sid with
              | ok rplan =>
                simp only [Except.map]
                simp only [arPlan_steps, mapFind, arStep_id]
                cases hu : rplan.steps.find? (fun st => decide (st.id = sid)) with
                | some u =>
                  simp only [Option.map_some', arStep_retry_count, optMapGetD]
                  rw [← ih]
                  simp only [arCall]
                  congr 1
                  by_cases hz : u.retry_count = 0
                  · rw [if_pos hz]
                    simp [arState, emit, addEff, arEvent, arEffect, arUpdatePlan,
                      List.map_append]
                  · rw [if_neg hz]
                    simp [arState, emit, addEff, arEvent, arEffect, arUpdatePlan,
                      List.map_append]
                | none =>
                  simp only [Option.map_none', Option.getD_none]
                  rw [← ih]
                  simp only [arCall]
                  congr 1
                  simp [arState, emit, addEff, arEvent, arEffect, arUpdatePlan,
                    List.map_append]
              | error e =>
                simp only [Except.map]
                simp [arState, emit, addEff, arEvent, arEffect, List.map_append]
    | cancel =>
      simp only [runCall, arCall]
      simp only [arState_store, arStore_activePlan]
      cases hap : s.store.activePlan with
      | none => simp [Option.map_none']
      | some plan =>
        simp only [Option.map_some', arPlan_id, arOracle_cancel]
        cases hr : oracle.cancelPlanResp plan.id with
        | ok rplan =>
          simp only [Except.map]
          simp [arState, emit, addEff, doClearSaved, arEvent, arEffect, arUpdatePlan,
            arClearPlan, arClearSavedFn, List.map_append]
        | error e =>
          simp only [Except.map]
          simp [arState, emit, addEff, doClearSaved, arEvent, arEffect, arClearPlan,
            arClearSavedFn, List.map_append]
    | completeStepByAction an success data =>
      simp only [runCall, arCall]
      simp only [arState_store, arStore_activePlan]
      cases hap : s.store.activePlan with
      | none => simp [Option.map_none']
      | some plan =>
        simp only [Option.map_some', arPlan_steps, mapFind, arStep_action_name, arStep_status]
        cases h1 : plan.steps.find? (fun st =>
            decide (st.action_name = an) && decide (st.status = StepStatus.awaiting_result)) with
        | none => simp [Option.map_none']
        | some step =>
          simp only [Option.map_some', arStep_id, arStep_is_retriable]
          by_cases hs : success = true
          · rw [if_pos hs, if_pos hs]
            exact ih (.markStepComplete step.id data) s
          · rw [if_neg hs, if_neg hs]
            simp [arState, emit, doUpdateStep, arEvent, arEffect, arUpdatePlanStep,
              List.map_append]
    | markStepDone sid =>
      simp only [runCall, arCall]
      simp only [arState_store, arStore_activePlan]
      cases hap : s.store.activePlan with
      | none => simp [Option.map_none']
      | some plan =>
        simp only [Option.map_some', arPlan_steps, mapFind, arStep_id]
        cases h1 : plan.steps.find? (fun st => decide (st.id = sid)) with
        | none => simp [Option.map_none']
        | some step =>
          simp only [Option.map_some', arStep_status]
          by_cases hst : step.status ≠ StepStatus.awaiting_result
          · rw [if_pos hst, if_pos hst]
          · rw [if_neg hst, if_neg hst]
            exact ih (.markStepComplete sid none) s
    | markStepComplete sid data =>
      simp only [runCall, arCall]
      rw [← ih]
      simp only [arCall]
      congr 1
      simp [arState, emit, doUpdateStep, arEvent, arEffect, arUpdatePlanStep, List.map_append]
    | executeStep step =>
      simp only [runCall, arCall]
      simp only [arState_store, arStore_activePlan]
      cases hap : s.store.activePlan with
      | none => simp [Option.map_none']
      | some plan =>
        simp only [Option.map_some', arStep_id]
        have h2 : doUpdateStep step.id { status := some StepStatus.executing } (arState g s) =
            arState g (doUpdateStep step.id { status := some StepStatus.executing } s) := by
          simp [arState, doUpdateStep, arEffect, arUpdatePlanStep, List.map_append]
        rw [h2]
        generalize doUpdateStep step.id { status := some StepStatus.executing } s = s1
        simp only [arState_store, arStore_activePlan]
        have h3 : emit (.stepActive (s1.store.activePlan.map (arPlan g)) (arStep g step))
            (arState g s1) = arState g (emit (.stepActive s1.store.activePlan step) s1) := by
          simp [arState, emit, arEvent, arEffect, List.map_append]
        rw [h3]
        generalize emit (.stepActive s1.store.activePlan step) s1 = s2
        rw [arRunStepHandler]
        cases hrs : runStepHandler env step s2 with
        | error m =>
          simp only []
          exact arFailCatch g oracle plan step m s2
        | ok pr =>
          obtain ⟨s3, result⟩ := pr
          simp only []
          simp only [arStep_rrf, arStep_auto_complete, arStep_id, arPlan_id]
          by_cases hf : step.requires_result_feedback = true
          · rw [if_pos hf, if_pos hf]
            have h4 : addEff (.rpcContinuePlan plan.id step.id result) (arState g s3) =
                arState g (addEff (.rpcContinuePlan plan.id step.id result) s3) := by
              simp [arState, addEff, arEffect, List.map_append]
            rw [h4]
            generalize addEff (.rpcContinuePlan plan.id step.id result) s3 = s4
            simp only [arOracle_continue]
            cases hcr : oracle.continuePlanResp plan.id step.id result with
            | ok rplan =>
              simp only [Except.map]
              simp [arState, emit, arEvent, arEffect, arUpdatePlan, List.map_append]
            | error m =>
              simp only [Except.map]
              exact arFailCatch g oracle plan step m s4
          · rw [if_neg hf, if_neg hf]
            by_cases ha : step.auto_complete = true
            · rw [if_pos ha, if_pos ha]
              rw [← ih]
              simp only [arCall]
              congr 1
              simp [arState, emit, doUpdateStep, arEvent, arEffect, arUpdatePlanStep,
                List.map_append]
            · rw [if_neg ha, if_neg ha]
              simp [arState, emit, doUpdateStep, arEvent, arEffect, arUpdatePlanStep,
                List.map_append]

/-- C10: the executor never reads a step's `auto_run` flag.  First:
overwriting every step's `auto_run` with arbitrary values (`g`, keyed by
step id, applied consistently to the state, the call argument and the
server's responses) commutes with every executor operation at every
fuel, so no behaviour — stores, persistence, RPCs, events — depends on
the flag.  Second: `executeNextStep` dispatches `executeStep` on the
first `ready` step whenever that step's `requires_user_confirmation` is
false — the hypotheses impose nothing on `auto_run`, so such a step is
executed immediately, with no user initiation awaited, even when its
`auto_run` is false. -/
theorem C10_auto_run_never_read (env : ActionEnv) (oracle : ServerOracle) (siteId : String) :
    (∀ (g : String → Bool) (fuel : Nat) (c : ExecCall) (s : ExecState),
      runCall env (arOracle g oracle) siteId fuel (arCall g c) (arState g s) =
        arState g (runCall env oracle siteId fuel c s)) ∧
    (∀ (fuel : Nat) (s : ExecState) (plan : ExecutionPlan) (step : ExecutionStep),
      s.store.activePlan = some plan →
      plan.steps.find? (fun st => decide (st.status = StepStatus.ready)) = some step →
      step.requires_user_confirmation = false →
      runCall env oracle siteId (fuel + 1) .executeNextStep s =
        runCall env oracle siteId fuel (.executeStep step) s) := by
  constructor
  · intro g fuel c s
    exact arRunCall g env oracle siteId fuel c s
  · intro fuel s plan step hap hf huc
    have h1 := List.find?_some hf
    have hst : step.status = StepStatus.ready := by
      simp only [decide_eq_true_eq] at h1
      exact h1
    simp only [runCall]
    rw [hap]
    simp only []
    rw [hf]
    simp only []
    rw [huc, hst]
    simp

def noAutoStep : ExecutionStep :=
  { exStepA with
    auto_run := false
    status := .ready }

def noAutoPlan : ExecutionPlan :=
  { exPlan with steps := [noAutoStep, exStepB] }

def noAutoState : ExecState :=
  { store := ⟨some noAutoPlan, []⟩, storage := [], now := 0, effects := [] }

theorem C10_auto_run_never_read_witness :
    runCall noopEnv (arOracle (fun _ => false) netFailOracle) "site-A" 3
        (arCall (fun _ => false) .cancel) (arState (fun _ => false) noAutoState) =
      arState (fun _ => false) (runCall noopEnv netFailOracle "site-A" 3 .cancel
        noAutoState) ∧
    runCall noopEnv netFailOracle "site-A" 3 .executeNextStep noAutoState =
      runCall noopEnv netFailOracle "site-A" 2 (.executeStep noAutoStep) noAutoState :=
  ⟨(C10_auto_run_never_read noopEnv netFailOracle "site-A").1 (fun _ => false) 3 .cancel
      noAutoState,
   (C10_auto_run_never_read noopEnv netFailOracle "site-A").2 2 noAutoState noAutoPlan
     noAutoStep rfl (by decide) rfl⟩

end PillarSDK
